import Mathlib

/-!
Verification development for the Intel resource-drivers-for-Kubernetes
node agent: device discovery, the QAT physical-function / virtual-function
allocation state machine, the CDI registry synchronizer, the prepared-claims
ledger (Prepare / Unprepare lifecycle), and the GPU health monitor.

Go maps are embedded as association lists, Go errors as `Option String` /
`Except String`, and Go panics as `Option.none` results.  Stateful methods
become pure functions from state to state.
-/

namespace IntelDra

/-! ### Association-list helpers (embedding of Go maps) -/

/-- Lookup in an association list (Go map read: first matching key). -/
def lookupA {κ α : Type} [DecidableEq κ] : List (κ × α) → κ → Option α
  | [], _ => none
  | p :: t, k => if p.1 = k then some p.2 else lookupA t k

/-- Insert-or-replace in an association list (Go map assignment). -/
def insertA {κ α : Type} [DecidableEq κ] : List (κ × α) → κ → α → List (κ × α)
  | [], k, v => [(k, v)]
  | p :: t, k, v => if p.1 = k then (k, v) :: t else p :: insertA t k v

/-- Remove a key from an association list (Go map delete). -/
def removeA {κ α : Type} [DecidableEq κ] : List (κ × α) → κ → List (κ × α)
  | [], _ => []
  | p :: t, k => if p.1 = k then removeA t k else p :: removeA t k

/-! ### QAT services bitset

`pkg/qat/device` is not under `src/`; the `Services` type is pinned by the
repository's own tests (`TestServicesSupport`, `TestStringToServices`): the
four services `sym`, `asym`, `dc`, `dcc` form a bitset, with a distinct
`Unset` sentinel meaning "no particular service requested". -/

/-- Modelled from the spec: `pkg/qat/device.Services` is not under `src/`.
A service-capability bitset (§3 "service-capability bitset"), with the
`unset` sentinel for an unspecified request. -/
inductive Services where
  | unset : Services
  | mask (bits : Nat) : Services
deriving DecidableEq

def Services.None : Services := .mask 0
def Services.Sym : Services := .mask 1
def Services.Asym : Services := .mask 2
def Services.Dc : Services := .mask 4
def Services.Dcc : Services := .mask 8
def Services.Unset : Services := .unset

/-- Modelled from the spec: `Services.Supports` is not under `src/`; behavior
pinned by `TestServicesSupport`: every profile supports an `Unset` request,
`Unset` supports no concrete request, a bitset supports an equal bitset, and
otherwise supports exactly the nonempty requests whose bits it contains (an
empty `None` request is NOT supported by a nonempty profile). -/
def Services.Supports : Services → Services → Bool
  | _, .unset => true
  | .unset, .mask _ => false
  | .mask b, .mask r =>
    decide (b = r) || (decide (r ≠ 0) && decide ((b &&& r) = r))

/-! ### QAT physical / virtual function allocation state machine -/

/-- A physical function with its allocation tables (§3 PhysicalFunction).
`vfs` is the fixed set of virtual-function UIDs belonging to this PF
(the keys of the driver's `VFDevices` map that point at this PF). -/
structure PFDevice where
  device : String
  services : Services
  allowReconfiguration : Bool
  vfs : List String
  availableDevices : List String
  allocatedDevices : List (String × List String)
deriving DecidableEq

/-- Does claimant `c` hold VF `uid` on this PF? -/
def PFDevice.allocatedContains (pf : PFDevice) (c uid : String) : Bool :=
  match lookupA pf.allocatedDevices c with
  | some l => decide (uid ∈ l)
  | none => false

/-- The claimant currently holding `uid`, if any (first match). -/
def PFDevice.findOwner (pf : PFDevice) (uid : String) : Option String :=
  match pf.allocatedDevices.find? (fun p => decide (uid ∈ p.2)) with
  | some p => some p.1
  | none => none

/-- Add `uid` to claimant `c`'s allocation set (new claimants appended). -/
def insertAlloc : List (String × List String) → String → String → List (String × List String)
  | [], c, uid => [(c, [uid])]
  | (k, l) :: t, c, uid =>
    if k = c then (k, uid :: l) :: t else (k, l) :: insertAlloc t c uid

/-- Remove `uid` from claimant `c`'s allocation set, dropping the claimant
entry when it becomes empty (first matching claimant only). -/
def removeAlloc : List (String × List String) → String → String → List (String × List String)
  | [], _, _ => []
  | (k, l) :: t, c, uid =>
    if k = c then
      (if l.erase uid = [] then t else (k, l.erase uid) :: t)
    else (k, l) :: removeAlloc t c uid

/-- Modelled from the spec: `VFDevice.CheckAlreadyAllocated` is not under
`src/` (§4.2 step 1: already allocated to the requesting claimant with a
compatible or unspecified service request); behavior pinned by
`TestCheckAlreadyAllocated`. -/
def PFDevice.CheckAlreadyAllocated (pf : PFDevice) (uid : String)
    (requested : Services) (requester : String) : Bool :=
  pf.allocatedContains requester uid &&
    (decide (requested = Services.Unset) || pf.services.Supports requested)

/-- Move `uid` from the PF's available set into claimant `requester`'s
allocation set (the shared mutation of both allocation paths). -/
def PFDevice.bindVF (pf : PFDevice) (uid requester : String) : PFDevice :=
  { pf with availableDevices := pf.availableDevices.erase uid,
            allocatedDevices := insertAlloc pf.allocatedDevices requester uid }

/-- Modelled from the spec: `VFDevice.AllocateFromConfigured` is not under
`src/` (§4.2 step 2: bind an available VF of a configured PF to a nonempty
claimant).  Behavior pinned by `TestAllocateFromConfigured`: the request's
service is NOT compared against the profile ("service mismatch ignored");
only a PF with some configured profile qualifies. -/
def PFDevice.AllocateFromConfigured (pf : PFDevice) (uid : String)
    (_requested : Services) (requester : String) : Option PFDevice :=
  if requester = "" then none
  else if pf.services = Services.None then none
  else if uid ∈ pf.availableDevices then some (pf.bindVF uid requester)
  else none

/-- Modelled from the spec: `VFDevice.AllocateWithReconfiguration` is not
under `src/` (§4.2 step 3).  Behavior pinned by
`TestAllocateWithReconfiguration`: reconfiguration requires the permission
flag, an UNCONFIGURED profile (a PF already configured for `sym` rejects an
`asym` request even with zero allocations), and no allocated VF; it then
sets the profile to the requested services and binds. -/
def PFDevice.AllocateWithReconfiguration (pf : PFDevice) (uid : String)
    (requested : Services) (requester : String) : Option PFDevice :=
  if requester = "" then none
  else if pf.allowReconfiguration = false then none
  else if pf.services ≠ Services.None then none
  else if pf.allocatedDevices ≠ [] then none
  else if uid ∈ pf.availableDevices then
    some { pf.bindVF uid requester with services := requested }
  else none

/-- Modelled from the spec: `VFDevice.Free` is not under `src/` (§4.2:
freeing requires the matching claimant, or resolves the sole owner when none
is supplied; freeing the last VF of a reconfigurable PF with a non-default
profile resets the profile).  Behavior pinned by `TestFree`.  Returns the
updated PF and whether a reconfiguration-affecting change occurred;
`none` is the Go error return. -/
def PFDevice.Free (pf : PFDevice) (uid requester : String) :
    Option (PFDevice × Bool) :=
  let owner? :=
    if requester = "" then pf.findOwner uid
    else if pf.allocatedContains requester uid then some requester else none
  match owner? with
  | none => none
  | some c =>
    let alloc' := removeAlloc pf.allocatedDevices c uid
    if pf.allowReconfiguration = true ∧ alloc' = [] ∧ pf.services ≠ Services.None then
      some ({ pf with allocatedDevices := alloc',
                      availableDevices := uid :: pf.availableDevices,
                      services := Services.None }, true)
    else
      some ({ pf with allocatedDevices := alloc',
                      availableDevices := uid :: pf.availableDevices }, false)

/-- The PF owning VF `uid` (embeds the `VFDevices` map's back-pointer). -/
def findPF (pfs : List PFDevice) (uid : String) : Option PFDevice :=
  pfs.find? (fun pf => decide (uid ∈ pf.vfs))

/-- Write back a mutated PF (Go mutates the shared PF through a pointer;
here the PF is replaced by its PCI address). -/
def replacePF (pfs : List PFDevice) (pf' : PFDevice) : List PFDevice :=
  pfs.map (fun q => if q.device = pf'.device then pf' else q)

/-- `nodeState.Allocate` from `src/cmd/kubelet-qat-plugin/node_state.go`
(lines 143-160): try idempotent hit, then allocation from the configured
profile, then allocation with reconfiguration; the returned Bool reports
whether a reconfiguration happened.  `none` is the could-not-allocate
error (a lookup of an unknown UID would nil-panic in Go; `none` as well). -/
def Allocate (pfs : List PFDevice) (uid : String) (requested : Services)
    (requester : String) : Option (List PFDevice × Bool) :=
  match findPF pfs uid with
  | none => none
  | some pf =>
    if pf.CheckAlreadyAllocated uid requested requester then some (pfs, false)
    else
      match pf.AllocateFromConfigured uid requested requester with
      | some pf' => some (replacePF pfs pf', false)
      | none =>
        match pf.AllocateWithReconfiguration uid requested requester with
        | some pf' => some (replacePF pfs pf', true)
        | none => none

/-- `VFDevice.Free` lifted to the device table: find the PF owning `uid`,
free it there and write the PF back. -/
def FreeVF (pfs : List PFDevice) (uid requester : String) :
    Option (List PFDevice × Bool) :=
  match findPF pfs uid with
  | none => none
  | some pf =>
    match pf.Free uid requester with
    | none => none
    | some (pf', updated) => some (replacePF pfs pf', updated)

/-! ### Claims, prepared results and the QAT node state -/

/-- One entry of `claim.Status.Allocation.Devices.Results`. -/
structure AllocatedDeviceResult where
  driver : String
  pool : String
  device : String
  request : String
deriving DecidableEq

/-- A resource claim, reduced to what the node-side code reads. -/
structure ResourceClaim where
  uid : String
  results : List AllocatedDeviceResult
deriving DecidableEq

/-- `kubeletplugin.Device` as accumulated by Prepare. -/
structure PreparedDevice where
  requests : List String
  poolName : String
  deviceName : String
  cdiDeviceIDs : List String
deriving DecidableEq

/-- `kubeletplugin.PrepareResult`. -/
structure PrepareResult where
  err : Option String
  devices : List PreparedDevice
deriving DecidableEq

def driverName : String := "qat.intel.com"

def qatCDIKind : String := "intel.com/qat"

/-- CDI name of a QAT VF (`VFDevice.CDIName`, pinned by `TestCDIName`). -/
def qatCDIName (uid : String) : String := qatCDIKind ++ "=" ++ uid

/-- CDI name of the vfio control node (`device.GetControlNode`, pinned by
`TestGetControlNode`). -/
def controlCDIName : String := qatCDIKind ++ "=qatvf-vfio"

/-- The QAT `nodeState`: device/allocation tables, the in-memory
prepared-claims ledger, and the persisted ledger file contents. -/
structure NodeStateQat where
  pfs : List PFDevice
  prepared : List (String × PrepareResult)
  preparedFile : List (String × PrepareResult)
  nodeName : String
deriving DecidableEq

/-- The prepared-device record built for one allocation result
(`node_state.go` lines 127-134). -/
def mkPreparedDevice (r : AllocatedDeviceResult) : PreparedDevice :=
  { requests := [r.request], poolName := r.pool, deviceName := r.device,
    cdiDeviceIDs := [qatCDIName r.device, controlCDIName] }

/-- The rollback loop of `nodeState.Prepare` (lines 116-118): on allocation
failure every allocatable VF is `Free`d under the claim's UID, errors
ignored.  Net per-PF effect: the claimant's entry is dropped, its VFs return
to the available set, and the profile resets when this PF becomes empty
while reconfigurable. -/
def freeAllPF (pf : PFDevice) (c : String) : PFDevice :=
  match lookupA pf.allocatedDevices c with
  | none => pf
  | some l =>
    let alloc' := removeA pf.allocatedDevices c
    let svc :=
      if pf.allowReconfiguration = true ∧ alloc' = [] ∧ pf.services ≠ Services.None
      then Services.None else pf.services
    { pf with allocatedDevices := alloc',
              availableDevices := l ++ pf.availableDevices,
              services := svc }

def freeAll (pfs : List PFDevice) (c : String) : List PFDevice :=
  pfs.map (fun pf => freeAllPF pf c)

/-- Outcome of the device loop of `nodeState.Prepare`; both outcomes carry
the (possibly mutated) device table, since Go mutates shared state before
returning an error. -/
inductive PrepOutcome where
  | ok (pfs : List PFDevice) (devices : List PreparedDevice)
  | fail (pfs : List PFDevice) (msg : String)
deriving DecidableEq

/-- The loop body of `nodeState.Prepare` (`node_state.go` lines 97-135):
skip results for other drivers/pools; error out (without rollback) when the
requested device is not allocatable; allocate with an `Unset` service
request, rolling back every allocation of this claim on failure. -/
def prepareLoop (nodeName claimUID : String) :
    List AllocatedDeviceResult → List PFDevice → List PreparedDevice → PrepOutcome
  | [], pfs, acc => .ok pfs acc
  | r :: rest, pfs, acc =>
    if r.driver = driverName ∧ r.pool = nodeName then
      match findPF pfs r.device with
      | none => .fail pfs ("could not find allocatable device " ++ r.device)
      | some _ =>
        match Allocate pfs r.device Services.Unset claimUID with
        | some (pfs1, _) =>
          prepareLoop nodeName claimUID rest pfs1 (acc ++ [mkPreparedDevice r])
        | none =>
          .fail (freeAll pfs claimUID)
            ("could not allocate device " ++ r.device ++ " for claim " ++ claimUID)
    else prepareLoop nodeName claimUID rest pfs acc

/-- `nodeState.Prepare` (`src/cmd/kubelet-qat-plugin/node_state.go` lines
91-141).  On success the result is stored in the in-memory map only:
no write of the prepared-claims file happens on this path. -/
def NodeStateQat.Prepare (s : NodeStateQat) (claim : ResourceClaim) :
    NodeStateQat × Option String :=
  match prepareLoop s.nodeName claim.uid claim.results s.pfs [] with
  | .ok pfs' devs =>
    ({ s with pfs := pfs',
              prepared := insertA s.prepared claim.uid { err := none, devices := devs } },
     none)
  | .fail pfs' msg => ({ s with pfs := pfs' }, some msg)

/-- `driver.prepareResourceClaim` (`src/unnamed/part_018` lines 50-64): an
already-ledgered claim returns its stored result untouched; otherwise
delegate to `Prepare` and return the freshly stored result. -/
def prepareResourceClaim (s : NodeStateQat) (claim : ResourceClaim) :
    NodeStateQat × PrepareResult :=
  match lookupA s.prepared claim.uid with
  | some res => (s, res)
  | none =>
    match s.Prepare claim with
    | (s1, some e) =>
      (s1, { err := some ("error preparing devices for claim " ++ claim.uid ++ ": " ++ e),
             devices := [] })
    | (s1, none) =>
      (s1, (lookupA s1.prepared claim.uid).getD { err := none, devices := [] })

def gaudiDriverName : String := "gaudi.intel.com"

def gaudiCDIKind : String := "intel.com/gaudi"

/-- `pkg/gaudi/device.DeviceInfo`, reduced to the fields Prepare reads. -/
structure GaudiDeviceInfo where
  uid : String
  deviceIdx : Nat
  moduleIdx : Nat
  uverbsIdx : Nat
deriving DecidableEq

/-- The Gaudi `nodeState` (`src/cmd/kubelet-gaudi-plugin/node_state.go`).
`cdiEnvDevices` stands for the claim-scoped env-only CDI device written by
`cdiHabanaEnvVar`. -/
structure NodeStateGaudi where
  allocatable : List (String × GaudiDeviceInfo)
  prepared : List (String × PrepareResult)
  preparedFile : List (String × PrepareResult)
  cdiEnvDevices : List (String × List String)
  nodeName : String
deriving DecidableEq

def gaudiCDIName (uid : String) : String := gaudiCDIKind ++ "=" ++ uid

/-- The accumulation loop of `prepareAllocatedDevices` (lines 200-225):
skip foreign driver/pool results, fail on unknown devices, and collect the
device record plus the three index/path lists for the env vars. -/
def gaudiPrepareLoop (s : NodeStateGaudi) :
    List AllocatedDeviceResult → List PreparedDevice → List String → List String →
    List String →
    Except String (List PreparedDevice × List String × List String × List String)
  | [], devs, vis, mods, paths => .ok (devs, vis, mods, paths)
  | r :: rest, devs, vis, mods, paths =>
    if r.driver = gaudiDriverName ∧ r.pool = s.nodeName then
      match lookupA s.allocatable r.device with
      | none => .error ("could not find allocatable device " ++ r.device)
      | some info =>
        gaudiPrepareLoop s rest
          (devs ++ [{ requests := [r.request], poolName := r.pool,
                      deviceName := r.device,
                      cdiDeviceIDs := [gaudiCDIName info.uid] }])
          (vis ++ [toString info.deviceIdx])
          (mods ++ [toString info.moduleIdx])
          (paths ++ ["/dev/accel/accel" ++ toString info.deviceIdx])
    else gaudiPrepareLoop s rest devs vis mods paths

/-- `prepareAllocatedDevices` (lines 195-241): after the loop, when at least
one device was collected, ensure the claim-keyed env-only CDI device and
append its qualified name to the first device's CDI ids. -/
def gaudiPrepareAllocatedDevices (s : NodeStateGaudi) (claim : ResourceClaim) :
    Except String (NodeStateGaudi × List PreparedDevice) :=
  match gaudiPrepareLoop s claim.results [] [] [] [] with
  | .error e => .error e
  | .ok (devs, vis, mods, paths) =>
    if devs = [] then .ok (s, devs)
    else
      let envs := ["HABANA_VISIBLE_DEVICES=" ++ String.intercalate "," vis,
                   "HABANA_VISIBLE_MODULES=" ++ String.intercalate "," mods,
                   "HL_VISIBLE_DEVICES=" ++ String.intercalate "," paths]
      let s1 := { s with cdiEnvDevices := insertA s.cdiEnvDevices claim.uid envs }
      match devs with
      | [] => .ok (s1, [])
      | d0 :: drest =>
        .ok (s1, { d0 with cdiDeviceIDs := d0.cdiDeviceIDs ++ [gaudiCDIName claim.uid] } :: drest)

/-- `nodeState.Prepare` for Gaudi (`src/cmd/kubelet-gaudi-plugin/node_state.go`
lines 170-193): on success the updated ledger is WRITTEN TO THE FILE
(`helpers.WritePreparedClaimsToFile`) before returning. -/
def NodeStateGaudi.Prepare (s : NodeStateGaudi) (claim : ResourceClaim) :
    NodeStateGaudi × Option String :=
  match gaudiPrepareAllocatedDevices s claim with
  | .error e => (s, some e)
  | .ok (s1, devs) =>
    let prepared' := insertA s1.prepared claim.uid { err := none, devices := devs }
    ({ s1 with prepared := prepared', preparedFile := prepared' }, none)

/-! ### CDI registry synchronizer -/

/-- A device entry of a CDI spec file (name plus its device-node paths). -/
structure CDIDevice where
  name : String
  deviceNodes : List String
deriving DecidableEq

/-- A CDI spec file: kind, stamped format version and device entries. -/
structure CDISpec where
  kind : String
  version : String
  devices : List CDIDevice
deriving DecidableEq

/-- The on-disk CDI registry: spec-file name to spec contents. -/
abbrev CDICache : Type := List (String × CDISpec)

/-- `cdiapi.GenerateSpecName(intel.com, qat)` (file extensions elided). -/
def qatGeneratedSpecName : String := "intel.com-qat"

/-- `getQatSpecs`: the vendor specs of kind `intel.com/qat`. -/
def getQatSpecs (cache : CDICache) : List (String × CDISpec) :=
  cache.filter (fun p => decide (p.2.kind = qatCDIKind))

/-- The per-spec reconciliation loop of `SyncDevices`
(`src/pkg/qat/cdihelpers/cdihelpers.go` lines 48-88): keep only device
entries whose name is still in the inventory, drop kept names from the
remaining inventory, delete a spec that becomes empty and rewrite (WITHOUT
restamping the version) a spec that lost entries; remember the contents of
the spec carrying the generated name as the base for appending. -/
def syncLoop : List (String × CDISpec) → CDICache → List (String × String) →
    CDISpec → CDICache × List (String × String) × CDISpec
  | [], cache, vfdevs, vfspec => (cache, vfdevs, vfspec)
  | (sname, spec) :: rest, cache, vfdevs, vfspec =>
    let kept := spec.devices.filter (fun d => (lookupA vfdevs d.name).isSome)
    let removedAny := spec.devices.any (fun d => (lookupA vfdevs d.name).isNone)
    let vfdevs1 := vfdevs.filter
      (fun p => !(spec.devices.any (fun d => decide (d.name = p.1))))
    let spec' := if removedAny then { spec with devices := kept } else spec
    let cache1 :=
      if removedAny then
        if kept = [] then removeA cache sname
        else insertA cache sname spec'
      else cache
    let vfspec1 := if sname = qatGeneratedSpecName then spec' else vfspec
    syncLoop rest cache1 vfdevs1 vfspec1

/-- `addDeviceSpec` + `appendDevices` (lines 97-136): append the remaining
inventory as device entries to the base spec, STAMP the minimum required
version computed from the spec's contents, and write it under the generated
name.  `minV` stands for `cdiapi.MinimumRequiredVersion` (a function of the
spec's device contents). -/
def appendDevices (minV : List CDIDevice → String) (cache : CDICache)
    (vfspec : CDISpec) (vfdevs : List (String × String)) : CDICache :=
  let spec1 : CDISpec :=
    { vfspec with
      devices := vfspec.devices ++
        vfdevs.map (fun p => { name := p.1, deviceNodes := [p.2] : CDIDevice }) }
  let spec2 := { spec1 with version := minV spec1.devices }
  insertA cache qatGeneratedSpecName spec2

/-- `SyncDevices` (lines 40-95): reconcile every QAT spec against the
inventory (`vfdevs`: VF UID to device-node path), then append the devices
not yet present in any spec. -/
def SyncDevices (minV : List CDIDevice → String) (cache : CDICache)
    (vfdevs : List (String × String)) : CDICache :=
  let start : CDISpec := { kind := qatCDIKind, version := "", devices := [] }
  match syncLoop (getQatSpecs cache) cache vfdevs start with
  | (cache1, rem, vfspec) =>
    if rem = [] then cache1 else appendDevices minV cache1 vfspec rem

/-- `writeSpec` for Gaudi (`src/unnamed/part_004` lines 128-150): stamp the
minimum required version, delete the spec if its device list is empty,
otherwise persist it. -/
def writeSpec (minV : List CDIDevice → String) (cache : CDICache)
    (spec : CDISpec) (specName : String) : CDICache :=
  let spec1 := { spec with version := minV spec.devices }
  if spec1.devices = [] then removeA cache specName
  else insertA cache specName spec1

/-- Device nodes for a Gaudi device (`newContainerEditsDeviceNodes`, lines
101-125): accel and control nodes always; the InfiniBand uverbs node only
when present (absence is the reserved sentinel index 1024). -/
def gaudiUverbsMissingIdx : Nat := 1024

def gaudiDeviceNodes (deviceIdx uverbsIdx : Nat) : List String :=
  ["/dev/accel/accel" ++ toString deviceIdx,
   "/dev/accel/accel_controlD" ++ toString deviceIdx] ++
  (if uverbsIdx = gaudiUverbsMissingIdx then []
   else ["/dev/infiniband/uverbs" ++ toString uverbsIdx])

def gaudiGeneratedSpecName : String := "intel.com-gaudi"

/-- `AddDetectedDevicesToCDIRegistry` (`src/unnamed/part_004` lines 48-62):
delete every existing Gaudi spec, then write one fresh spec containing all
detected devices via `writeSpec`. -/
def AddDetectedDevicesToCDIRegistry (minV : List CDIDevice → String)
    (cache : CDICache) (detected : List (String × GaudiDeviceInfo)) : CDICache :=
  let cleaned := cache.filter (fun p => !(decide (p.2.kind = gaudiCDIKind)))
  let spec : CDISpec :=
    { kind := gaudiCDIKind, version := "",
      devices := detected.map (fun p =>
        { name := p.1, deviceNodes := gaudiDeviceNodes p.2.deviceIdx p.2.uverbsIdx }) }
  writeSpec minV cleaned spec gaudiGeneratedSpecName

/-! ### GPU health monitor -/

/-- xpum health status values (`xpum_health_status_t`). -/
inductive HealthStatus where
  | unknown : HealthStatus
  | ok : HealthStatus
  | warning : HealthStatus
  | critical : HealthStatus
deriving DecidableEq

/-- `healthStatuses` string names (`src/pkg/goxpusmi/xpu-smi.go` lines 87-92). -/
def HealthStatus.name : HealthStatus → String
  | .unknown => "Unknown"
  | .ok => "OK"
  | .warning => "Warning"
  | .critical => "Critical"

/-- The six health categories (`healthTypes`, lines 79-86). -/
def healthTypes : List String :=
  ["CoreThermal", "MemoryThermal", "Power", "Memory", "FabricPort", "Frequency"]

/-- `XPUSMIDeviceDetails`, reduced to what `HealthCheck` reads. -/
structure XPUSMIDeviceDetails where
  deviceId : Nat
  pciAddress : String
  pciDeviceId : String
deriving DecidableEq

/-- Modelled from the spec: `pkg/helpers.DeviceUIDFromPCIinfo` is not under
`src/`; §3 derives the UID deterministically from bus address and hardware
model (colons and dots replaced by hyphens, then the model appended). -/
def deviceUIDFromPCIinfo (pciAddress pciDeviceId : String) : String :=
  String.mk (pciAddress.data.map (fun ch => if ch = ':' ∨ ch = '.' then '-' else ch))
    ++ "-" ++ pciDeviceId

/-- The previous-status cache (`deviceHealthCache`): device id to
per-category status. -/
def HealthCache : Type := List (Nat × List (String × HealthStatus))

/-- The inner category loop of `HealthCheck` (lines 214-239): query the
telemetry source (`getHealth` stands for `xpumGetHealth`; `none` is a failed
query, which is skipped), compare with the cached previous status (a missing
category reads as the Go zero value `unknown`), and on change update the
cache entry and record the delta. -/
def checkDevice (getHealth : Nat → String → Option HealthStatus) (devId : Nat) :
    List String → List (String × HealthStatus) →
    List (String × String) × List (String × HealthStatus)
  | [], entry => ([], entry)
  | t :: rest, entry =>
    match getHealth devId t with
    | none => checkDevice getHealth devId rest entry
    | some curr =>
      let prev := (lookupA entry t).getD HealthStatus.unknown
      if prev = curr then checkDevice getHealth devId rest entry
      else
        match checkDevice getHealth devId rest (insertA entry t curr) with
        | (ups, entry') => ((t, curr.name) :: ups, entry')

/-- `goxpusmi.HealthCheck` (`src/pkg/goxpusmi/xpu-smi.go` lines 200-242):
per device, seed a first-seen cache entry with every category OK, run the
category loop, store the updated entry, and emit a delta entry (keyed by the
device UID) only when at least one category changed. -/
def HealthCheck (getHealth : Nat → String → Option HealthStatus) :
    List XPUSMIDeviceDetails → HealthCache →
    List (String × List (String × String)) × HealthCache
  | [], cache => ([], cache)
  | d :: rest, cache =>
    let entry0 :=
      match lookupA cache d.deviceId with
      | some e => e
      | none => healthTypes.map (fun t => (t, HealthStatus.ok))
    match checkDevice getHealth d.deviceId healthTypes entry0 with
    | (ups, entry1) =>
      let cache1 := insertA cache d.deviceId entry1
      match HealthCheck getHealth rest cache1 with
      | (restUps, cacheF) =>
        (if ups = [] then restUps
         else (deviceUIDFromPCIinfo d.pciAddress d.pciDeviceId, ups) :: restUps,
         cacheF)

/-- `statusHealth` (`src/unnamed/part_015` lines 103-118): health by status
name; an unrecognized value panics (`none`). -/
def statusHealth (status : String) : Option Bool :=
  if status = "Critical" then some false
  else if status = "Warning" then some true
  else if status = "OK" then some true
  else if status = "Unknown" then some true
  else none

/-- Health status integer values (`src/unnamed/part_014` lines 33-38). -/
def UNKNOWN : Int := 0
def OK : Int := 1
def WARNING : Int := 2
def CRITICAL : Int := 3

/-- `statusNameTaintHealthEffect` (`src/unnamed/part_014` lines 208-222):
name, taint flag, health flag and taint effect per status value; any other
value panics (`none`). -/
def statusNameTaintHealthEffect (status : Int) :
    Option (String × Bool × Bool × String) :=
  if status = CRITICAL then some ("Critical", true, false, "NoExecute")
  else if status = WARNING then some ("Warning", true, true, "NoSchedule")
  else if status = OK then some ("OK", false, true, "")
  else if status = UNKNOWN then some ("Unknown", false, true, "")
  else none

/-- `gpu/device.DeviceInfo`, reduced to the health fields `updateHealth`
touches. -/
structure GpuDeviceInfo where
  healthStatus : List (String × String)
  healthy : Bool
deriving DecidableEq

/-- Outcome of `updateHealth`: a panic (invalid status), an early return on
an unknown device UID (no republish), or completion followed by
`PublishResourceSlice`. -/
inductive UpdateHealthResult where
  | panicked : UpdateHealthResult
  | notFound (alloc : List (String × GpuDeviceInfo)) : UpdateHealthResult
  | published (alloc : List (String × GpuDeviceInfo)) : UpdateHealthResult
deriving DecidableEq

/-- The per-device status application of `updateHealth` (lines 48-57):
record every category's status, folding the overall health flag;
`statusHealth` panics propagate. -/
def applyStatuses (dev : GpuDeviceInfo) :
    List (String × String) → Bool → Option GpuDeviceInfo
  | [], isHealthy => some { dev with healthy := isHealthy }
  | (t, st) :: rest, isHealthy =>
    match statusHealth st with
    | none => none
    | some h =>
      applyStatuses { dev with healthStatus := insertA dev.healthStatus t st }
        rest (isHealthy && h)

/-- `driver.updateHealth` (`src/unnamed/part_015` lines 34-64): walk the
batch; an absent device UID makes the whole function RETURN at that point
(devices later in the iteration keep their state, and the resource slice is
not republished); otherwise update each mentioned device and republish. -/
def updateHealth (alloc : List (String × GpuDeviceInfo)) :
    List (String × List (String × String)) → UpdateHealthResult
  | [] => .published alloc
  | (uid, sts) :: rest =>
    match lookupA alloc uid with
    | none => .notFound alloc
    | some dev =>
      match applyStatuses dev sts true with
      | none => .panicked
      | some dev' => updateHealth (insertA alloc uid dev') rest

/-! ### Rescan and the allocation-engine operation language -/

/-- Modelled from the spec: `PFDevice.getVFs` (rescan) is not under `src/`.
Per §3 lifecycle ("a rescan must preserve the allocation bindings of VFs
currently allocated") and `TestNew`'s rescan case: the available set becomes
the freshly discovered VFs minus those currently allocated; allocations are
untouched. -/
def PFDevice.getVFs (pf : PFDevice) (discovered : List String) : PFDevice :=
  let allocated := (pf.allocatedDevices.map Prod.snd).flatten
  let newAvail := discovered.dedup.filter (fun u => !(decide (u ∈ allocated)))
  { pf with availableDevices := newAvail, vfs := newAvail ++ allocated }

/-- One operation against the allocation engine. -/
inductive EngineOp where
  | allocate (uid : String) (svc : Services) (requester : String) : EngineOp
  | free (uid requester : String) : EngineOp
  | rescan (pfDevice : String) (discovered : List String) : EngineOp
deriving DecidableEq

/-- Apply one engine operation; failed operations leave the state unchanged
(the engine returns an error without mutating). -/
def applyOp (pfs : List PFDevice) : EngineOp → List PFDevice
  | .allocate uid svc c =>
    match Allocate pfs uid svc c with
    | some (pfs', _) => pfs'
    | none => pfs
  | .free uid c =>
    match FreeVF pfs uid c with
    | some (pfs', _) => pfs'
    | none => pfs
  | .rescan dev disc =>
    pfs.map (fun pf => if pf.device = dev then pf.getVFs disc else pf)

def applyOps (pfs : List PFDevice) (ops : List EngineOp) : List PFDevice :=
  ops.foldl applyOp pfs

/-! ### The VF-exclusivity invariant -/

/-- All VF UIDs recorded on a PF: the available set followed by every
claimant's allocation set. -/
def PFDevice.pool (pf : PFDevice) : List String :=
  pf.availableDevices ++ (pf.allocatedDevices.map Prod.snd).flatten

/-- Well-formedness of a PF (§3 invariant): the recorded VFs are pairwise
distinct (so no VF is both available and allocated, or held by two
claimants), they are exactly the PF's VFs, and claimant keys are unique. -/
def PFDevice.wf (pf : PFDevice) : Prop :=
  pf.pool.Nodup ∧ (∀ u ∈ pf.pool, u ∈ pf.vfs) ∧ (∀ u ∈ pf.vfs, u ∈ pf.pool) ∧
    pf.vfs.Nodup ∧ (pf.allocatedDevices.map Prod.fst).Nodup

instance (pf : PFDevice) : Decidable pf.wf := by
  unfold PFDevice.wf; infer_instance

/-- Whole-table well-formedness: every PF well-formed, VF sets disjoint
across PFs, and PCI addresses unique. -/
def wfState (pfs : List PFDevice) : Prop :=
  (∀ pf ∈ pfs, pf.wf) ∧ ((pfs.map PFDevice.vfs).flatten).Nodup ∧
    (pfs.map PFDevice.device).Nodup

instance (pfs : List PFDevice) : Decidable (wfState pfs) := by
  unfold wfState; infer_instance

/-- How many times claimant `c` holds `uid` on this PF. -/
def allocCountPF (pf : PFDevice) (c uid : String) : Nat :=
  ((lookupA pf.allocatedDevices c).getD []).count uid

/-- How many times claimant `c` holds `uid` across the whole table. -/
def allocCount (pfs : List PFDevice) (c uid : String) : Nat :=
  (pfs.map (fun pf => allocCountPF pf c uid)).sum

/-! ### Association-list lemmas -/

theorem lookupA_insertA_self {κ α : Type} [DecidableEq κ] (m : List (κ × α)) (k : κ) (v : α) :
    lookupA (insertA m k v) k = some v := by
  induction m with
  | nil => simp [insertA, lookupA]
  | cons p t ih =>
    by_cases h : p.1 = k
    · simp [insertA, h, lookupA]
    · simp [insertA, h, lookupA, ih]

theorem lookupA_insertA_ne {κ α : Type} [DecidableEq κ] (m : List (κ × α)) (k k' : κ) (v : α)
    (h : k ≠ k') : lookupA (insertA m k v) k' = lookupA m k' := by
  induction m with
  | nil => simp [insertA, lookupA, h]
  | cons p t ih =>
    by_cases hp : p.1 = k
    · simp [insertA, hp, lookupA, h]
    · simp only [insertA, if_neg hp, lookupA]
      by_cases hp' : p.1 = k'
      · simp [hp']
      · simp [hp', ih]

theorem lookupA_removeA_self {κ α : Type} [DecidableEq κ] (m : List (κ × α)) (k : κ) :
    lookupA (removeA m k) k = none := by
  induction m with
  | nil => simp [removeA, lookupA]
  | cons p t ih =>
    by_cases h : p.1 = k
    · simp [removeA, h, ih]
    · simp [removeA, h, lookupA, ih]

theorem lookupA_removeA_ne {κ α : Type} [DecidableEq κ] (m : List (κ × α)) (k k' : κ)
    (h : k ≠ k') : lookupA (removeA m k) k' = lookupA m k' := by
  induction m with
  | nil => simp [removeA]
  | cons p t ih =>
    by_cases hp : p.1 = k
    · rw [removeA]
      simp only [if_pos hp, ih, lookupA]
      have : ¬ p.1 = k' := by rw [hp]; exact h
      simp [this]
    · rw [removeA]
      simp only [if_neg hp, lookupA]
      by_cases hp' : p.1 = k'
      · simp [hp']
      · simp [hp', ih]

theorem flatten_insertAlloc (m : List (String × List String)) (c u : String) :
    List.Perm ((insertAlloc m c u).map Prod.snd).flatten (u :: (m.map Prod.snd).flatten) := by
  induction m with
  | nil => simp [insertAlloc]
  | cons p t ih =>
    obtain ⟨k, l⟩ := p
    by_cases h : k = c
    · simp [insertAlloc, h]
    · simp only [insertAlloc, if_neg h, List.map_cons, List.flatten_cons]
      exact (ih.append_left l).trans List.perm_middle

theorem keys_insertAlloc (m : List (String × List String)) (c u : String) :
    (insertAlloc m c u).map Prod.fst =
      if c ∈ m.map Prod.fst then m.map Prod.fst else m.map Prod.fst ++ [c] := by
  induction m with
  | nil => simp [insertAlloc]
  | cons p t ih =>
    obtain ⟨k, l⟩ := p
    by_cases h : k = c
    · simp [insertAlloc, h]
    · have hne : ¬ c = k := fun hc => h hc.symm
      simp only [insertAlloc, if_neg h, List.map_cons, List.mem_cons]
      by_cases hm : c ∈ t.map Prod.fst
      · simp [ih, hm, hne]
      · simp [ih, hm, hne]

theorem keys_removeAlloc_sublist (m : List (String × List String)) (c u : String) :
    List.Sublist ((removeAlloc m c u).map Prod.fst) (m.map Prod.fst) := by
  induction m with
  | nil => simp [removeAlloc]
  | cons p t ih =>
    obtain ⟨k, l⟩ := p
    by_cases h : k = c
    · by_cases he : l.erase u = []
      · simp only [removeAlloc, if_pos h, if_pos he]
        exact List.sublist_cons_self _ _
      · simp only [removeAlloc, if_pos h, if_neg he, List.map_cons]
        exact List.Sublist.refl _
    · simp only [removeAlloc, if_neg h, List.map_cons]
      exact List.Sublist.cons₂ _ ih

theorem lookupA_insertAlloc_self (m : List (String × List String)) (c u : String) :
    lookupA (insertAlloc m c u) c = some (u :: (lookupA m c).getD []) := by
  induction m with
  | nil => simp [insertAlloc, lookupA]
  | cons p t ih =>
    obtain ⟨k, l⟩ := p
    by_cases h : k = c
    · simp [insertAlloc, h, lookupA]
    · simp [insertAlloc, h, lookupA, ih]

theorem lookupA_insertAlloc_ne (m : List (String × List String)) (c c' u : String)
    (h : c ≠ c') : lookupA (insertAlloc m c u) c' = lookupA m c' := by
  induction m with
  | nil => simp [insertAlloc, lookupA, h]
  | cons p t ih =>
    obtain ⟨k, l⟩ := p
    by_cases hp : k = c
    · subst hp
      simp [insertAlloc, lookupA, h]
    · simp only [insertAlloc, if_neg hp, lookupA]
      by_cases hp' : k = c'
      · simp [hp']
      · simp [hp', ih]

theorem lookupA_removeAlloc_ne (m : List (String × List String)) (c c' u : String)
    (h : c ≠ c') : lookupA (removeAlloc m c u) c' = lookupA m c' := by
  induction m with
  | nil => simp [removeAlloc]
  | cons p t ih =>
    obtain ⟨k, l⟩ := p
    by_cases hp : k = c
    · subst hp
      by_cases he : l.erase u = []
      · simp [removeAlloc, he, lookupA, h]
      · simp [removeAlloc, he, lookupA, h]
    · simp only [removeAlloc, if_neg hp, lookupA]
      by_cases hp' : k = c'
      · simp [hp']
      · simp [hp', ih]

theorem lookupA_mem_keys {κ α : Type} [DecidableEq κ] (m : List (κ × α)) (k : κ) (v : α)
    (h : lookupA m k = some v) : k ∈ m.map Prod.fst := by
  induction m with
  | nil => simp [lookupA] at h
  | cons p t ih =>
    rw [lookupA] at h
    by_cases hp : p.1 = k
    · simp [hp]
    · simp only [if_neg hp] at h
      simp [ih h]

theorem lookupA_snd_mem {κ α : Type} [DecidableEq κ] (m : List (κ × α)) (k : κ) (v : α)
    (h : lookupA m k = some v) : v ∈ m.map Prod.snd := by
  induction m with
  | nil => simp [lookupA] at h
  | cons p t ih =>
    rw [lookupA] at h
    by_cases hp : p.1 = k
    · simp only [if_pos hp, Option.some.injEq] at h
      simp [← h]
    · simp only [if_neg hp] at h
      simp [ih h]

theorem mem_lookupA_of_nodup {κ α : Type} [DecidableEq κ] (m : List (κ × α)) (k : κ) (v : α)
    (hnd : (m.map Prod.fst).Nodup) (h : (k, v) ∈ m) : lookupA m k = some v := by
  induction m with
  | nil => simp at h
  | cons p t ih =>
    simp only [List.map_cons, List.nodup_cons] at hnd
    rcases List.mem_cons.mp h with h1 | h1
    · rw [← h1, lookupA]
      simp
    · rw [lookupA]
      by_cases hp : p.1 = k
      · exfalso
        apply hnd.1
        rw [hp]
        exact List.mem_map.mpr ⟨(k, v), h1, rfl⟩
      · simp only [if_neg hp]
        exact ih hnd.2 h1

theorem flatten_removeAlloc (m : List (String × List String)) (c u : String)
    (l : List String) (hl : lookupA m c = some l) (hu : u ∈ l) :
    List.Perm ((m.map Prod.snd).flatten)
      (u :: ((removeAlloc m c u).map Prod.snd).flatten) := by
  induction m with
  | nil => simp [lookupA] at hl
  | cons p t ih =>
    obtain ⟨k, l0⟩ := p
    by_cases h : k = c
    · rw [lookupA] at hl
      simp only [if_pos h, Option.some.injEq] at hl
      have hu0 : u ∈ l0 := hl ▸ hu
      by_cases he : l0.erase u = []
      · simp only [removeAlloc, if_pos h, if_pos he, List.map_cons, List.flatten_cons]
        have h1 : List.Perm l0 (u :: l0.erase u) := List.perm_cons_erase hu0
        rw [he] at h1
        exact h1.append_right _
      · simp only [removeAlloc, if_pos h, if_neg he, List.map_cons, List.flatten_cons]
        exact (List.perm_cons_erase hu0).append_right _
    · rw [lookupA] at hl
      simp only [if_neg h] at hl
      simp only [removeAlloc, if_neg h, List.map_cons, List.flatten_cons]
      exact ((ih hl).append_left l0).trans List.perm_middle

theorem removeA_eq_self_of_not_mem {κ α : Type} [DecidableEq κ] (m : List (κ × α)) (k : κ)
    (h : k ∉ m.map Prod.fst) : removeA m k = m := by
  induction m with
  | nil => simp [removeA]
  | cons p t ih =>
    simp only [List.map_cons, List.mem_cons] at h
    push_neg at h
    rw [removeA]
    have : ¬ p.1 = k := fun hh => h.1 hh.symm
    simp [this, ih h.2]

theorem keys_removeA_sublist {κ α : Type} [DecidableEq κ] (m : List (κ × α)) (k : κ) :
    List.Sublist ((removeA m k).map Prod.fst) (m.map Prod.fst) := by
  induction m with
  | nil => simp [removeA]
  | cons p t ih =>
    rw [removeA]
    by_cases h : p.1 = k
    · simp only [if_pos h, List.map_cons]
      exact ih.trans (List.sublist_cons_self _ _)
    · simp only [if_neg h, List.map_cons]
      exact List.Sublist.cons₂ _ ih

theorem flatten_removeA (m : List (String × List String)) (c : String) (l : List String)
    (hnd : (m.map Prod.fst).Nodup) (hl : lookupA m c = some l) :
    List.Perm ((m.map Prod.snd).flatten) (l ++ ((removeA m c).map Prod.snd).flatten) := by
  induction m with
  | nil => simp [lookupA] at hl
  | cons p t ih =>
    obtain ⟨k, l0⟩ := p
    simp only [List.map_cons, List.nodup_cons] at hnd
    by_cases h : k = c
    · rw [lookupA] at hl
      simp only [if_pos h, Option.some.injEq] at hl
      subst hl
      have ht : removeA t c = t := by
        apply removeA_eq_self_of_not_mem
        intro hc
        exact hnd.1 (h ▸ hc)
      simp only [removeA, if_pos h, ht, List.map_cons, List.flatten_cons]
      exact List.Perm.refl _
    · rw [lookupA] at hl
      simp only [if_neg h] at hl
      simp only [removeA, if_neg h, List.map_cons, List.flatten_cons]
      have h1 : List.Perm (l0 ++ (t.map Prod.snd).flatten)
          ((l0 ++ l) ++ ((removeA t c).map Prod.snd).flatten) := by
        rw [List.append_assoc]
        exact (ih hnd.2 hl).append_left l0
      have h2 : List.Perm ((l0 ++ l) ++ ((removeA t c).map Prod.snd).flatten)
          (l ++ (l0 ++ ((removeA t c).map Prod.snd).flatten)) := by
        rw [← List.append_assoc l l0]
        exact (@List.perm_append_comm _ l0 l).append_right _
      exact h1.trans h2

/-! ### Preservation of the exclusivity invariant by the engine operations -/

theorem pool_bindVF_perm (pf : PFDevice) (uid c : String) (h : uid ∈ pf.availableDevices) :
    List.Perm (pf.bindVF uid c).pool pf.pool := by
  have h1 := flatten_insertAlloc pf.allocatedDevices c uid
  have h2 : List.Perm (pf.bindVF uid c).pool
      (pf.availableDevices.erase uid ++ (uid :: (pf.allocatedDevices.map Prod.snd).flatten)) :=
    h1.append_left _
  have h3 : List.Perm
      (pf.availableDevices.erase uid ++ (uid :: (pf.allocatedDevices.map Prod.snd).flatten))
      (uid :: (pf.availableDevices.erase uid ++ (pf.allocatedDevices.map Prod.snd).flatten)) :=
    List.perm_middle
  have h4 : List.Perm pf.pool
      (uid :: (pf.availableDevices.erase uid ++ (pf.allocatedDevices.map Prod.snd).flatten)) :=
    (List.perm_cons_erase h).append_right _
  exact (h2.trans h3).trans h4.symm

theorem wf_of_perm_pool (pf pf' : PFDevice) (hperm : List.Perm pf'.pool pf.pool)
    (hvfs : pf'.vfs = pf.vfs) (hkeys : (pf'.allocatedDevices.map Prod.fst).Nodup)
    (hwf : pf.wf) : pf'.wf := by
  obtain ⟨hnd, hsub, hsup, hvnd, _⟩ := hwf
  refine ⟨hperm.nodup_iff.mpr hnd, ?_, ?_, hvfs ▸ hvnd, hkeys⟩
  · intro u hu
    rw [hvfs]
    exact hsub u (hperm.mem_iff.mp hu)
  · intro u hu
    rw [hvfs] at hu
    exact hperm.mem_iff.mpr (hsup u hu)

theorem keys_nodup_insertAlloc (m : List (String × List String)) (c u : String)
    (h : (m.map Prod.fst).Nodup) : ((insertAlloc m c u).map Prod.fst).Nodup := by
  rw [keys_insertAlloc]
  by_cases hc : c ∈ m.map Prod.fst
  · simp [hc, h]
  · simp only [if_neg hc]
    simp [List.nodup_append, h, hc]

theorem wf_bindVF (pf : PFDevice) (uid c : String) (hwf : pf.wf)
    (h : uid ∈ pf.availableDevices) : (pf.bindVF uid c).wf := by
  refine wf_of_perm_pool pf _ (pool_bindVF_perm pf uid c h) rfl ?_ hwf
  exact keys_nodup_insertAlloc _ _ _ hwf.2.2.2.2

theorem allocatedContains_iff (pf : PFDevice) (c uid : String) :
    pf.allocatedContains c uid = true ↔
      ∃ l, lookupA pf.allocatedDevices c = some l ∧ uid ∈ l := by
  unfold PFDevice.allocatedContains
  cases hlk : lookupA pf.allocatedDevices c with
  | none => simp
  | some l => simp

theorem findOwnerAux (m : List (String × List String)) (uid c : String)
    (hk : (m.map Prod.fst).Nodup)
    (h : (m.find? (fun p => decide (uid ∈ p.2))).map Prod.fst = some c) :
    ∃ l, lookupA m c = some l ∧ uid ∈ l := by
  induction m with
  | nil => simp at h
  | cons p t ih =>
    obtain ⟨k, l0⟩ := p
    simp only [List.map_cons, List.nodup_cons] at hk
    by_cases hm : uid ∈ l0
    · rw [List.find?_cons_of_pos] at h
      · simp only [Option.map_some', Option.some.injEq] at h
        refine ⟨l0, ?_, hm⟩
        simp [lookupA, h]
      · simpa using hm
    · rw [List.find?_cons_of_neg] at h
      · obtain ⟨l, hl, hu⟩ := ih hk.2 h
        refine ⟨l, ?_, hu⟩
        have hne : ¬ k = c := by
          intro hkc
          exact hk.1 (hkc ▸ lookupA_mem_keys t c l hl)
        simp [lookupA, hne, hl]
      · simpa using hm

theorem findOwner_spec (pf : PFDevice) (uid c : String)
    (hk : (pf.allocatedDevices.map Prod.fst).Nodup) (h : pf.findOwner uid = some c) :
    ∃ l, lookupA pf.allocatedDevices c = some l ∧ uid ∈ l := by
  apply findOwnerAux pf.allocatedDevices uid c hk
  unfold PFDevice.findOwner at h
  cases hf : pf.allocatedDevices.find? (fun p => decide (uid ∈ p.2)) with
  | none => rw [hf] at h; simp at h
  | some q => rw [hf] at h; simp at h; simp [h]

/-- `Free` preserves the invariant and touches neither `vfs` nor `device`. -/
theorem wf_Free (pf : PFDevice) (uid requester : String) (pf' : PFDevice) (b : Bool)
    (hwf : pf.wf) (h : pf.Free uid requester = some (pf', b)) :
    pf'.wf ∧ pf'.vfs = pf.vfs ∧ pf'.device = pf.device := by
  unfold PFDevice.Free at h
  set owner? :=
    (if requester = "" then pf.findOwner uid
     else if pf.allocatedContains requester uid then some requester else none) with howner
  cases how : owner? with
  | none => rw [how] at h; simp at h
  | some c =>
    rw [how] at h
    simp only at h
    have hlk : ∃ l, lookupA pf.allocatedDevices c = some l ∧ uid ∈ l := by
      rw [howner] at how
      by_cases hr : requester = ""
      · rw [if_pos hr] at how
        exact findOwner_spec pf uid c hwf.2.2.2.2 how
      · rw [if_neg hr] at how
        by_cases hc : pf.allocatedContains requester uid
        · rw [if_pos hc] at how
          obtain ⟨l, hl, hu⟩ := (allocatedContains_iff pf requester uid).mp hc
          cases how
          exact ⟨l, hl, hu⟩
        · rw [if_neg hc] at how
          cases how
    obtain ⟨l, hl, hu⟩ := hlk
    have hpermflat := flatten_removeAlloc pf.allocatedDevices c uid l hl hu
    have hkeys : ((removeAlloc pf.allocatedDevices c uid).map Prod.fst).Nodup :=
      hwf.2.2.2.2.sublist (keys_removeAlloc_sublist pf.allocatedDevices c uid)
    have hpool : List.Perm
        (uid :: pf.availableDevices ++ ((removeAlloc pf.allocatedDevices c uid).map Prod.snd).flatten)
        pf.pool := by
      unfold PFDevice.pool
      have hstep : List.Perm
          (pf.availableDevices ++ (uid :: ((removeAlloc pf.allocatedDevices c uid).map Prod.snd).flatten))
          (uid :: pf.availableDevices ++ ((removeAlloc pf.allocatedDevices c uid).map Prod.snd).flatten) :=
        List.perm_middle
      exact (hstep.symm.trans ((hpermflat.append_left pf.availableDevices).symm))
    split at h
    · simp only [Option.some.injEq, Prod.mk.injEq] at h
      obtain ⟨h1, h2⟩ := h
      subst h1
      exact ⟨wf_of_perm_pool pf _ hpool rfl hkeys hwf, rfl, rfl⟩
    · simp only [Option.some.injEq, Prod.mk.injEq] at h
      obtain ⟨h1, h2⟩ := h
      subst h1
      exact ⟨wf_of_perm_pool pf _ hpool rfl hkeys hwf, rfl, rfl⟩

/-- `AllocateFromConfigured` preserves the invariant, `vfs` and `device`,
and binds from the available set. -/
theorem wf_AllocateFromConfigured (pf : PFDevice) (uid : String) (svc : Services)
    (c : String) (pf' : PFDevice) (hwf : pf.wf)
    (h : pf.AllocateFromConfigured uid svc c = some pf') :
    pf'.wf ∧ pf'.vfs = pf.vfs ∧ pf'.device = pf.device ∧
      uid ∈ pf.availableDevices ∧ pf' = pf.bindVF uid c := by
  unfold PFDevice.AllocateFromConfigured at h
  split at h
  · cases h
  · split at h
    · cases h
    · split at h
      · rename_i hmem
        cases h
        exact ⟨wf_bindVF pf uid c hwf hmem, rfl, rfl, hmem, rfl⟩
      · cases h

/-- `AllocateWithReconfiguration` preserves the invariant, `vfs` and
`device`, and binds from the available set. -/
theorem wf_AllocateWithReconfiguration (pf : PFDevice) (uid : String) (svc : Services)
    (c : String) (pf' : PFDevice) (hwf : pf.wf)
    (h : pf.AllocateWithReconfiguration uid svc c = some pf') :
    pf'.wf ∧ pf'.vfs = pf.vfs ∧ pf'.device = pf.device ∧
      uid ∈ pf.availableDevices ∧ pf' = { pf.bindVF uid c with services := svc } := by
  unfold PFDevice.AllocateWithReconfiguration at h
  split at h
  · cases h
  · split at h
    · cases h
    · split at h
      · cases h
      · split at h
        · cases h
        · split at h
          · rename_i hmem
            cases h
            have hb := wf_bindVF pf uid c hwf hmem
            exact ⟨hb, rfl, rfl, hmem, rfl⟩
          · cases h

/-- `freeAllPF` leaves `vfs` and `device` unchanged. -/
theorem freeAllPF_frame (pf : PFDevice) (c : String) :
    (freeAllPF pf c).vfs = pf.vfs ∧ (freeAllPF pf c).device = pf.device := by
  unfold freeAllPF
  cases lookupA pf.allocatedDevices c <;> simp

/-- `freeAllPF` preserves the invariant. -/
theorem wf_freeAllPF (pf : PFDevice) (c : String) (hwf : pf.wf) :
    (freeAllPF pf c).wf := by
  unfold freeAllPF
  cases hlk : lookupA pf.allocatedDevices c with
  | none => exact hwf
  | some l =>
    have hflat := flatten_removeA pf.allocatedDevices c l hwf.2.2.2.2 hlk
    have hkeys : ((removeA pf.allocatedDevices c).map Prod.fst).Nodup :=
      hwf.2.2.2.2.sublist (keys_removeA_sublist pf.allocatedDevices c)
    have hpool : List.Perm
        ((l ++ pf.availableDevices) ++ ((removeA pf.allocatedDevices c).map Prod.snd).flatten)
        pf.pool := by
      unfold PFDevice.pool
      have h1 : List.Perm
          ((l ++ pf.availableDevices) ++ ((removeA pf.allocatedDevices c).map Prod.snd).flatten)
          ((pf.availableDevices ++ l) ++ ((removeA pf.allocatedDevices c).map Prod.snd).flatten) :=
        (@List.perm_append_comm _ l pf.availableDevices).append_right _
      have h2 : (pf.availableDevices ++ l) ++ ((removeA pf.allocatedDevices c).map Prod.snd).flatten
          = pf.availableDevices ++ (l ++ ((removeA pf.allocatedDevices c).map Prod.snd).flatten) :=
        List.append_assoc _ _ _
      have h3 : List.Perm
          (pf.availableDevices ++ (l ++ ((removeA pf.allocatedDevices c).map Prod.snd).flatten))
          (pf.availableDevices ++ (pf.allocatedDevices.map Prod.snd).flatten) :=
        hflat.symm.append_left _
      exact h1.trans (h2 ▸ h3)
    exact wf_of_perm_pool pf _ hpool rfl hkeys hwf

/-- Rescan (`getVFs`) establishes the invariant from any discovered list. -/
theorem wf_getVFs (pf : PFDevice) (disc : List String) (hwf : pf.wf) :
    (pf.getVFs disc).wf := by
  have hallocnd : ((pf.allocatedDevices.map Prod.snd).flatten).Nodup :=
    hwf.1.sublist (List.sublist_append_right _ _)
  have hnd : (List.filter (fun u => !decide (u ∈ (pf.allocatedDevices.map Prod.snd).flatten))
      disc.dedup ++ (pf.allocatedDevices.map Prod.snd).flatten).Nodup := by
    rw [List.nodup_append]
    refine ⟨(List.nodup_dedup disc).filter _, hallocnd, ?_⟩
    intro u hu
    have hm := List.mem_filter.mp hu
    simp only [Bool.not_eq_true', decide_eq_false_iff_not] at hm
    exact hm.2
  exact ⟨hnd, fun u hu => hu, fun u hu => hu, hnd, hwf.2.2.2.2⟩

/-- Replacement only introduces the (well-formed) new PF. -/
theorem wfAll_replacePF (pfs : List PFDevice) (pf' : PFDevice)
    (h : ∀ pf ∈ pfs, pf.wf) (h' : pf'.wf) : ∀ q ∈ replacePF pfs pf', q.wf := by
  intro q hq
  unfold replacePF at hq
  obtain ⟨r, hr, hrq⟩ := List.mem_map.mp hq
  by_cases hd : r.device = pf'.device
  · rw [if_pos hd] at hrq
    exact hrq ▸ h'
  · rw [if_neg hd] at hrq
    exact hrq ▸ h r hr

/-- Unfolding equation of `Allocate` once the owning PF is found. -/
theorem Allocate_eq (pfs : List PFDevice) (uid : String) (svc : Services) (c : String)
    (pf : PFDevice) (hf : findPF pfs uid = some pf) :
    Allocate pfs uid svc c =
      (if pf.CheckAlreadyAllocated uid svc c then some (pfs, false)
       else
         match pf.AllocateFromConfigured uid svc c with
         | some pf' => some (replacePF pfs pf', false)
         | none =>
           match pf.AllocateWithReconfiguration uid svc c with
           | some pf' => some (replacePF pfs pf', true)
           | none => none) := by
  unfold Allocate
  rw [hf]

/-- Unfolding equation of `FreeVF` once the owning PF is found. -/
theorem FreeVF_eq (pfs : List PFDevice) (uid c : String)
    (pf : PFDevice) (hf : findPF pfs uid = some pf) :
    FreeVF pfs uid c =
      (match pf.Free uid c with
       | none => none
       | some (pf', updated) => some (replacePF pfs pf', updated)) := by
  unfold FreeVF
  rw [hf]

/-- A successful `Allocate` preserves per-PF well-formedness. -/
theorem wfAll_Allocate (pfs : List PFDevice) (uid : String) (svc : Services) (c : String)
    (pfs' : List PFDevice) (b : Bool) (h : ∀ pf ∈ pfs, pf.wf)
    (hres : Allocate pfs uid svc c = some (pfs', b)) : ∀ q ∈ pfs', q.wf := by
  cases hf : findPF pfs uid with
  | none => unfold Allocate at hres; rw [hf] at hres; cases hres
  | some pf =>
    rw [Allocate_eq pfs uid svc c pf hf] at hres
    have hpf : pf ∈ pfs := List.mem_of_find?_eq_some hf
    have hpfwf := h pf hpf
    split at hres
    · simp only [Option.some.injEq, Prod.mk.injEq] at hres
      rw [← hres.1]
      exact h
    · cases hp1 : pf.AllocateFromConfigured uid svc c with
      | some pf1 =>
        rw [hp1] at hres
        simp only [Option.some.injEq, Prod.mk.injEq] at hres
        rw [← hres.1]
        exact wfAll_replacePF pfs pf1 h (wf_AllocateFromConfigured pf uid svc c pf1 hpfwf hp1).1
      | none =>
        rw [hp1] at hres
        cases hp2 : pf.AllocateWithReconfiguration uid svc c with
        | some pf1 =>
          rw [hp2] at hres
          simp only [Option.some.injEq, Prod.mk.injEq] at hres
          rw [← hres.1]
          exact wfAll_replacePF pfs pf1 h
            (wf_AllocateWithReconfiguration pf uid svc c pf1 hpfwf hp2).1
        | none => rw [hp2] at hres; cases hres

/-- A successful `FreeVF` preserves per-PF well-formedness. -/
theorem wfAll_FreeVF (pfs : List PFDevice) (uid c : String)
    (pfs' : List PFDevice) (b : Bool) (h : ∀ pf ∈ pfs, pf.wf)
    (hres : FreeVF pfs uid c = some (pfs', b)) : ∀ q ∈ pfs', q.wf := by
  cases hf : findPF pfs uid with
  | none => unfold FreeVF at hres; rw [hf] at hres; cases hres
  | some pf =>
    rw [FreeVF_eq pfs uid c pf hf] at hres
    have hpf : pf ∈ pfs := List.mem_of_find?_eq_some hf
    have hpfwf := h pf hpf
    cases hfr : pf.Free uid c with
    | none => rw [hfr] at hres; cases hres
    | some pr1 =>
      obtain ⟨pf1, b1⟩ := pr1
      rw [hfr] at hres
      simp only [Option.some.injEq, Prod.mk.injEq] at hres
      rw [← hres.1]
      exact wfAll_replacePF pfs pf1 h (wf_Free pf uid c pf1 b1 hpfwf hfr).1

/-- Every engine operation preserves per-PF well-formedness. -/
theorem wfAll_applyOp (pfs : List PFDevice) (op : EngineOp)
    (h : ∀ pf ∈ pfs, pf.wf) : ∀ pf ∈ applyOp pfs op, pf.wf := by
  cases op with
  | allocate uid svc c =>
    cases hres : Allocate pfs uid svc c with
    | none =>
      intro q hq
      simp only [applyOp, hres] at hq
      exact h q hq
    | some pr =>
      obtain ⟨pfs', b⟩ := pr
      intro q hq
      simp only [applyOp, hres] at hq
      exact wfAll_Allocate pfs uid svc c pfs' b h hres q hq
  | free uid c =>
    cases hres : FreeVF pfs uid c with
    | none =>
      intro q hq
      simp only [applyOp, hres] at hq
      exact h q hq
    | some pr =>
      obtain ⟨pfs', b⟩ := pr
      intro q hq
      simp only [applyOp, hres] at hq
      exact wfAll_FreeVF pfs uid c pfs' b h hres q hq
  | rescan dev disc =>
    intro q hq
    simp only [applyOp] at hq
    obtain ⟨r, hr, hrq⟩ := List.mem_map.mp hq
    by_cases hd : r.device = dev
    · rw [if_pos hd] at hrq
      exact hrq ▸ wf_getVFs r disc (h r hr)
    · rw [if_neg hd] at hrq
      exact hrq ▸ h r hr

/-- Any sequence of engine operations preserves per-PF well-formedness. -/
theorem wfAll_applyOps (ops : List EngineOp) (pfs : List PFDevice)
    (h : ∀ pf ∈ pfs, pf.wf) : ∀ pf ∈ applyOps pfs ops, pf.wf := by
  induction ops generalizing pfs with
  | nil => exact h
  | cons op rest ih => exact ih (applyOp pfs op) (wfAll_applyOp pfs op h)

/-! ### Counting how often a claimant holds a VF -/

theorem allocCountPF_bindVF_self (pf : PFDevice) (uid c : String) :
    allocCountPF (pf.bindVF uid c) c uid = allocCountPF pf c uid + 1 := by
  unfold allocCountPF PFDevice.bindVF
  simp only
  rw [lookupA_insertAlloc_self]
  simp

theorem allocCountPF_bindVF_ne (pf : PFDevice) (uid c u : String) (hu : u ≠ uid) :
    allocCountPF (pf.bindVF uid c) c u = allocCountPF pf c u := by
  unfold allocCountPF PFDevice.bindVF
  simp only
  rw [lookupA_insertAlloc_self]
  simp [List.count_cons, hu]

theorem count_le_flatten (L : List (List String)) (l : List String) (u : String)
    (h : l ∈ L) : l.count u ≤ (L.flatten).count u := by
  induction L with
  | nil => simp at h
  | cons x t ih =>
    rw [List.flatten_cons, List.count_append]
    rcases List.mem_cons.mp h with h1 | h1
    · subst h1; omega
    · have := ih h1; omega

theorem allocCountPF_le_pool (pf : PFDevice) (c u : String) :
    allocCountPF pf c u ≤ pf.pool.count u := by
  unfold allocCountPF PFDevice.pool
  cases hlk : lookupA pf.allocatedDevices c with
  | none => simp
  | some l =>
    simp only [Option.getD_some]
    have h1 := count_le_flatten (pf.allocatedDevices.map Prod.snd) l u
      (lookupA_snd_mem pf.allocatedDevices c l hlk)
    rw [List.count_append]
    omega

theorem wf_pool_count_le_one (pf : PFDevice) (u : String) (hwf : pf.wf) :
    pf.pool.count u ≤ 1 :=
  List.nodup_iff_count_le_one.mp hwf.1 u

theorem allocCountPF_of_available (pf : PFDevice) (c u : String) (hwf : pf.wf)
    (h : u ∈ pf.availableDevices) : allocCountPF pf c u = 0 := by
  have h1 : 0 < pf.availableDevices.count u := List.count_pos_iff.mpr h
  have h2 : pf.pool.count u =
      pf.availableDevices.count u + ((pf.allocatedDevices.map Prod.snd).flatten).count u :=
    List.count_append u _ _
  have h3 := wf_pool_count_le_one pf u hwf
  have h4 := allocCountPF_le_pool pf c u
  have h5 : allocCountPF pf c u ≤ ((pf.allocatedDevices.map Prod.snd).flatten).count u := by
    unfold allocCountPF
    cases hlk : lookupA pf.allocatedDevices c with
    | none => simp
    | some l =>
      simpa using count_le_flatten (pf.allocatedDevices.map Prod.snd) l u
        (lookupA_snd_mem pf.allocatedDevices c l hlk)
  omega

theorem allocCountPF_of_contains (pf : PFDevice) (c u : String) (hwf : pf.wf)
    (h : pf.allocatedContains c u = true) : allocCountPF pf c u = 1 := by
  obtain ⟨l, hl, hu⟩ := (allocatedContains_iff pf c u).mp h
  have h1 : 0 < allocCountPF pf c u := by
    unfold allocCountPF
    rw [hl]
    simpa using List.count_pos_iff.mpr hu
  have h2 := (allocCountPF_le_pool pf c u).trans (wf_pool_count_le_one pf u hwf)
  omega

theorem allocCountPF_of_not_mem_vfs (pf : PFDevice) (c u : String) (hwf : pf.wf)
    (h : u ∉ pf.vfs) : allocCountPF pf c u = 0 := by
  have h1 : u ∉ pf.pool := fun hp => h (hwf.2.1 u hp)
  have h2 : pf.pool.count u = 0 := by
    by_contra hc
    exact h1 (List.count_pos_iff.mp (Nat.pos_of_ne_zero hc))
  have h3 := allocCountPF_le_pool pf c u
  omega

theorem allocCount_append (a b : List PFDevice) (c u : String) :
    allocCount (a ++ b) c u = allocCount a c u + allocCount b c u := by
  unfold allocCount
  rw [List.map_append, List.sum_append]

theorem allocCount_cons (pf : PFDevice) (t : List PFDevice) (c u : String) :
    allocCount (pf :: t) c u = allocCountPF pf c u + allocCount t c u := by
  unfold allocCount
  simp

theorem allocCount_eq_zero (l : List PFDevice) (c u : String)
    (h : ∀ q ∈ l, allocCountPF q c u = 0) : allocCount l c u = 0 := by
  induction l with
  | nil => rfl
  | cons q t ih =>
    rw [allocCount_cons, h q (List.mem_cons_self q t), ih (fun r hr => h r (List.mem_cons_of_mem q hr))]

/-! ### Replacement of a single PF -/

theorem replacePF_id (pfs : List PFDevice) (pf' : PFDevice)
    (h : ∀ q ∈ pfs, q.device ≠ pf'.device) : replacePF pfs pf' = pfs := by
  induction pfs with
  | nil => rfl
  | cons q t ih =>
    unfold replacePF
    simp only [List.map_cons]
    rw [if_neg (h q (List.mem_cons_self q t))]
    have ht := ih (fun r hr => h r (List.mem_cons_of_mem q hr))
    unfold replacePF at ht
    rw [ht]

theorem replacePF_split (pfs : List PFDevice) (pf pf' : PFDevice)
    (hnd : (pfs.map PFDevice.device).Nodup) (hpf : pf ∈ pfs) (hd : pf'.device = pf.device) :
    ∃ l1 l2, pfs = l1 ++ pf :: l2 ∧ replacePF pfs pf' = l1 ++ pf' :: l2 := by
  induction pfs with
  | nil => simp at hpf
  | cons q t ih =>
    simp only [List.map_cons, List.nodup_cons] at hnd
    by_cases hq : q.device = pf.device
    · have hqpf : q = pf := by
        rcases List.mem_cons.mp hpf with h1 | h1
        · exact h1.symm
        · exact absurd (hq ▸ List.mem_map.mpr ⟨pf, h1, rfl⟩) hnd.1
      subst hqpf
      refine ⟨[], t, rfl, ?_⟩
      unfold replacePF
      simp only [List.map_cons]
      rw [if_pos hd.symm]
      have ht : replacePF t pf' = t := by
        apply replacePF_id
        intro r hr hrd
        exact hnd.1 (List.mem_map.mpr ⟨r, hr, hrd.trans hd⟩)
      unfold replacePF at ht
      rw [ht]
      rfl
    · have hpft : pf ∈ t := by
        rcases List.mem_cons.mp hpf with h1 | h1
        · exfalso; apply hq; rw [h1]
        · exact h1
      obtain ⟨l1, l2, hsp, hrep⟩ := ih hnd.2 hpft
      refine ⟨q :: l1, l2, ?_, ?_⟩
      · rw [hsp]; rfl
      · unfold replacePF
        simp only [List.map_cons]
        rw [if_neg (fun hqd => hq (hqd.trans hd))]
        unfold replacePF at hrep
        rw [hrep]
        rfl

theorem replacePF_map_device (pfs : List PFDevice) (pf' : PFDevice) :
    (replacePF pfs pf').map PFDevice.device = pfs.map PFDevice.device := by
  unfold replacePF
  induction pfs with
  | nil => rfl
  | cons q t ih =>
    simp only [List.map_cons]
    by_cases hq : q.device = pf'.device
    · rw [if_pos hq, ih, hq]
    · rw [if_neg hq, ih]

theorem replacePF_map_vfs (pfs : List PFDevice) (pf' : PFDevice)
    (h : ∀ q ∈ pfs, q.device = pf'.device → q.vfs = pf'.vfs) :
    (replacePF pfs pf').map PFDevice.vfs = pfs.map PFDevice.vfs := by
  unfold replacePF
  induction pfs with
  | nil => rfl
  | cons q t ih =>
    simp only [List.map_cons]
    by_cases hq : q.device = pf'.device
    · rw [if_pos hq, ih (fun r hr => h r (List.mem_cons_of_mem q hr)),
        (h q (List.mem_cons_self q t) hq)]
    · rw [if_neg hq, ih (fun r hr => h r (List.mem_cons_of_mem q hr))]

theorem findPF_mem_vfs (pfs : List PFDevice) (uid : String) (pf : PFDevice)
    (h : findPF pfs uid = some pf) : uid ∈ pf.vfs := by
  have := List.find?_some h
  simpa using this

theorem vfs_notin_of_split (l1 l2 : List PFDevice) (pf : PFDevice) (u : String)
    (hflat : (((l1 ++ pf :: l2).map PFDevice.vfs).flatten).Nodup) (hu : u ∈ pf.vfs) :
    (∀ q ∈ l1, u ∉ q.vfs) ∧ (∀ q ∈ l2, u ∉ q.vfs) := by
  rw [List.map_append, List.map_cons, List.flatten_append, List.flatten_cons] at hflat
  have hparts := List.nodup_append.mp hflat
  have hdis1 := hparts.2.2
  have hdis2 := (List.nodup_append.mp hparts.2.1).2.2
  constructor
  · intro q hq hmem
    exact hdis1 (List.mem_flatten.mpr ⟨q.vfs, List.mem_map.mpr ⟨q, hq, rfl⟩, hmem⟩)
      (List.mem_append_left _ hu)
  · intro q hq hmem
    exact hdis2 hu (List.mem_flatten.mpr ⟨q.vfs, List.mem_map.mpr ⟨q, hq, rfl⟩, hmem⟩)

/-- A successful `Allocate` preserves table well-formedness, the VF and
device maps, allocates `uid` to the requester exactly once, and leaves the
requester's other holdings unchanged. -/
theorem Allocate_spec (pfs : List PFDevice) (uid : String) (svc : Services) (c : String)
    (pfs' : List PFDevice) (b : Bool) (hws : wfState pfs)
    (hres : Allocate pfs uid svc c = some (pfs', b)) :
    wfState pfs' ∧ pfs'.map PFDevice.vfs = pfs.map PFDevice.vfs ∧
      pfs'.map PFDevice.device = pfs.map PFDevice.device ∧
      allocCount pfs' c uid = 1 ∧
      ∀ u, u ≠ uid → allocCount pfs' c u = allocCount pfs c u := by
  obtain ⟨hall, hvnd, hdnd⟩ := hws
  cases hf : findPF pfs uid with
  | none => unfold Allocate at hres; rw [hf] at hres; cases hres
  | some pf =>
    rw [Allocate_eq pfs uid svc c pf hf] at hres
    have hpf := List.mem_of_find?_eq_some hf
    have huid := findPF_mem_vfs pfs uid pf hf
    have hpfwf := hall pf hpf
    split at hres
    · rename_i hchk
      simp only [Option.some.injEq, Prod.mk.injEq] at hres
      obtain ⟨h1, h2⟩ := hres
      subst h1
      rw [PFDevice.CheckAlreadyAllocated, Bool.and_eq_true] at hchk
      have hcnt1 := allocCountPF_of_contains pf c uid hpfwf hchk.1
      obtain ⟨l1, l2, hsp⟩ := List.append_of_mem hpf
      have hnotin := vfs_notin_of_split l1 l2 pf uid (hsp ▸ hvnd) huid
      have hz1 : allocCount l1 c uid = 0 := allocCount_eq_zero l1 c uid
        (fun q hq => allocCountPF_of_not_mem_vfs q c uid
          (hall q (hsp ▸ List.mem_append_left _ hq)) (hnotin.1 q hq))
      have hz2 : allocCount l2 c uid = 0 := allocCount_eq_zero l2 c uid
        (fun q hq => allocCountPF_of_not_mem_vfs q c uid
          (hall q (hsp ▸ List.mem_append_right _ (List.mem_cons_of_mem pf hq))) (hnotin.2 q hq))
      refine ⟨⟨hall, hvnd, hdnd⟩, rfl, rfl, ?_, fun u _ => rfl⟩
      rw [hsp, allocCount_append, allocCount_cons, hz1, hz2, hcnt1]
    · rename_i hchk
      have hbind : ∀ (pf1 : PFDevice), pf1.wf → pf1.vfs = pf.vfs → pf1.device = pf.device →
          allocCountPF pf1 c uid = 1 →
          (∀ u, u ≠ uid → allocCountPF pf1 c u = allocCountPF pf c u) →
          ∀ (bb : Bool), (replacePF pfs pf1, bb) = (pfs', b) →
          wfState pfs' ∧ pfs'.map PFDevice.vfs = pfs.map PFDevice.vfs ∧
            pfs'.map PFDevice.device = pfs.map PFDevice.device ∧
            allocCount pfs' c uid = 1 ∧
            ∀ u, u ≠ uid → allocCount pfs' c u = allocCount pfs c u := by
        intro pf1 hwf1 hvfs1 hdev1 hc1 hcu bb heq
        simp only [Prod.mk.injEq] at heq
        obtain ⟨heq1, heq2⟩ := heq
        subst heq1
        obtain ⟨l1, l2, hsp, hrep⟩ := replacePF_split pfs pf pf1 hdnd hpf hdev1
        have hnotin := vfs_notin_of_split l1 l2 pf uid (hsp ▸ hvnd) huid
        have hz1 : ∀ u, allocCount l1 c u = allocCount l1 c u := fun _ => rfl
        have hvmap : (replacePF pfs pf1).map PFDevice.vfs = pfs.map PFDevice.vfs := by
          apply replacePF_map_vfs
          intro q hq hqd
          have : q = pf := by
            have hinj := List.inj_on_of_nodup_map hdnd
            exact hinj hq hpf (by rw [hqd, hdev1])
          rw [this, hvfs1]
        have hdmap := replacePF_map_device pfs pf1
        have hallz1 : allocCount l1 c uid = 0 := allocCount_eq_zero l1 c uid
          (fun q hq => allocCountPF_of_not_mem_vfs q c uid
            (hall q (hsp ▸ List.mem_append_left _ hq)) (hnotin.1 q hq))
        have hallz2 : allocCount l2 c uid = 0 := allocCount_eq_zero l2 c uid
          (fun q hq => allocCountPF_of_not_mem_vfs q c uid
            (hall q (hsp ▸ List.mem_append_right _ (List.mem_cons_of_mem pf hq))) (hnotin.2 q hq))
        refine ⟨⟨wfAll_replacePF pfs pf1 hall hwf1, hvmap ▸ hvnd, hdmap ▸ hdnd⟩,
          hvmap, hdmap, ?_, ?_⟩
        · rw [hrep, allocCount_append, allocCount_cons, hallz1, hallz2, hc1]
        · intro u hu
          rw [hrep, hsp, allocCount_append, allocCount_cons,
            allocCount_append, allocCount_cons, hcu u hu]
      cases hp1 : pf.AllocateFromConfigured uid svc c with
      | some pf1 =>
        rw [hp1] at hres
        simp only [Option.some.injEq] at hres
        obtain ⟨hw1, hv1, hd1, hmem1, hform⟩ :=
          wf_AllocateFromConfigured pf uid svc c pf1 hpfwf hp1
        have hz : allocCountPF pf c uid = 0 := allocCountPF_of_available pf c uid hpfwf hmem1
        refine hbind pf1 hw1 hv1 hd1 ?_ ?_ false hres
        · rw [hform, allocCountPF_bindVF_self, hz]
        · intro u hu
          rw [hform, allocCountPF_bindVF_ne pf uid c u hu]
      | none =>
        rw [hp1] at hres
        cases hp2 : pf.AllocateWithReconfiguration uid svc c with
        | some pf1 =>
          rw [hp2] at hres
          simp only [Option.some.injEq] at hres
          obtain ⟨hw1, hv1, hd1, hmem1, hform⟩ :=
            wf_AllocateWithReconfiguration pf uid svc c pf1 hpfwf hp2
          have hz : allocCountPF pf c uid = 0 := allocCountPF_of_available pf c uid hpfwf hmem1
          refine hbind pf1 hw1 hv1 hd1 ?_ ?_ true hres
          · rw [hform]
            show allocCountPF (pf.bindVF uid c) c uid = 1
            rw [allocCountPF_bindVF_self, hz]
          · intro u hu
            rw [hform]
            show allocCountPF (pf.bindVF uid c) c u = allocCountPF pf c u
            rw [allocCountPF_bindVF_ne pf uid c u hu]
        | none => rw [hp2] at hres; cases hres

/-! ### Properties of the Prepare device loop -/

theorem findPF_isSome_iff (pfs : List PFDevice) (uid : String) :
    (findPF pfs uid).isSome ↔ ∃ v ∈ pfs.map PFDevice.vfs, uid ∈ v := by
  simp only [findPF, List.find?_isSome, decide_eq_true_eq, List.mem_map]
  constructor
  · rintro ⟨pf, hpf, hm⟩
    exact ⟨pf.vfs, ⟨pf, hpf, rfl⟩, hm⟩
  · rintro ⟨v, ⟨pf, hpf, rfl⟩, hm⟩
    exact ⟨pf, hpf, hm⟩

theorem findPF_isSome_congr (pfs pfs' : List PFDevice)
    (h : pfs'.map PFDevice.vfs = pfs.map PFDevice.vfs) (uid : String) :
    (findPF pfs' uid).isSome = (findPF pfs uid).isSome := by
  have := findPF_isSome_iff pfs uid
  have h2 := findPF_isSome_iff pfs' uid
  rw [h] at h2
  by_cases hs : (findPF pfs uid).isSome
  · rw [hs, h2.mpr (this.mp hs)]
  · have : ¬ (findPF pfs' uid).isSome = true := fun hc => hs (this.mpr (h2.mp hc))
    simp only [Bool.not_eq_true] at this hs
    rw [this, hs]

theorem allocCountPF_freeAllPF (pf : PFDevice) (c u : String) :
    allocCountPF (freeAllPF pf c) c u = 0 := by
  unfold allocCountPF freeAllPF
  cases hlk : lookupA pf.allocatedDevices c with
  | none => rw [hlk]; simp
  | some l =>
    simp only
    rw [lookupA_removeA_self]
    simp

theorem allocCount_freeAll (pfs : List PFDevice) (c u : String) :
    allocCount (freeAll pfs c) c u = 0 := by
  unfold freeAll
  induction pfs with
  | nil => rfl
  | cons pf t ih =>
    rw [List.map_cons, allocCount_cons, allocCountPF_freeAllPF, ih]

/-- The Prepare loop on success: table well-formedness is preserved, every
handled request's device ends allocated to the claim exactly once, and
already-exactly-once holdings of the claim stay exactly once. -/
theorem prepareLoop_ok_spec (nodeName claimUID : String)
    (results : List AllocatedDeviceResult) (pfs : List PFDevice)
    (acc : List PreparedDevice) (pfs' : List PFDevice) (devs : List PreparedDevice)
    (hws : wfState pfs)
    (hok : prepareLoop nodeName claimUID results pfs acc = .ok pfs' devs) :
    wfState pfs' ∧
      (∀ r ∈ results, r.driver = driverName → r.pool = nodeName →
        allocCount pfs' claimUID r.device = 1) ∧
      (∀ u, allocCount pfs claimUID u = 1 → allocCount pfs' claimUID u = 1) := by
  induction results generalizing pfs acc with
  | nil =>
    unfold prepareLoop at hok
    injection hok with h1 h2
    subst h1
    exact ⟨hws, by simp, fun u hu => hu⟩
  | cons r rest ih =>
    unfold prepareLoop at hok
    split at hok
    · cases hfp : findPF pfs r.device with
      | none => rw [hfp] at hok; cases hok
      | some pf0 =>
        rw [hfp] at hok
        cases halloc : Allocate pfs r.device Services.Unset claimUID with
        | none => rw [halloc] at hok; cases hok
        | some pr =>
          obtain ⟨pfs1, bb⟩ := pr
          rw [halloc] at hok
          obtain ⟨hws1, _, _, hc1, hcu⟩ :=
            Allocate_spec pfs r.device Services.Unset claimUID pfs1 bb hws halloc
          obtain ⟨hws', hproc, hcarry⟩ := ih pfs1 _ hws1 hok
          refine ⟨hws', ?_, ?_⟩
          · intro r' hr' hd hp
            rcases List.mem_cons.mp hr' with h1 | h1
            · rw [h1]
              exact hcarry r.device hc1
            · exact hproc r' h1 hd hp
          · intro u hu
            by_cases huu : u = r.device
            · rw [huu]
              exact hcarry r.device hc1
            · exact hcarry u ((hcu u huu).trans hu)
    · rename_i hskip
      obtain ⟨hws', hproc, hcarry⟩ := ih pfs acc hws hok
      refine ⟨hws', ?_, hcarry⟩
      intro r' hr' hd hp
      rcases List.mem_cons.mp hr' with h1 | h1
      · exact absurd ⟨h1 ▸ hd, h1 ▸ hp⟩ hskip
      · exact hproc r' h1 hd hp

/-- The Prepare loop on failure, when every handled device is present in the
allocatable table: the only possible failure is an allocation failure, whose
rollback leaves the claim holding nothing. -/
theorem prepareLoop_fail_spec (nodeName claimUID : String)
    (results : List AllocatedDeviceResult) (pfs : List PFDevice)
    (acc : List PreparedDevice) (pfs1 : List PFDevice) (msg : String)
    (hws : wfState pfs)
    (hexists : ∀ r ∈ results, r.driver = driverName → r.pool = nodeName →
      (findPF pfs r.device).isSome)
    (hfail : prepareLoop nodeName claimUID results pfs acc = .fail pfs1 msg) :
    ∀ u, allocCount pfs1 claimUID u = 0 := by
  induction results generalizing pfs acc with
  | nil => unfold prepareLoop at hfail; cases hfail
  | cons r rest ih =>
    unfold prepareLoop at hfail
    split at hfail
    · rename_i hcond
      cases hfp : findPF pfs r.device with
      | none =>
        exfalso
        have := hexists r (List.mem_cons_self r rest) hcond.1 hcond.2
        rw [hfp] at this
        cases this
      | some pf0 =>
        rw [hfp] at hfail
        cases halloc : Allocate pfs r.device Services.Unset claimUID with
        | none =>
          rw [halloc] at hfail
          injection hfail with h1 h2
          subst h1
          exact fun u => allocCount_freeAll pfs claimUID u
        | some pr =>
          obtain ⟨pfsN, bb⟩ := pr
          rw [halloc] at hfail
          obtain ⟨hws1, hvmap, _, _, _⟩ :=
            Allocate_spec pfs r.device Services.Unset claimUID pfsN bb hws halloc
          refine ih pfsN _ hws1 ?_ hfail
          intro r' hr' hd hp
          rw [findPF_isSome_congr pfs pfsN hvmap r'.device]
          exact hexists r' (List.mem_cons_of_mem r hr') hd hp
    · exact ih pfs acc hws
        (fun r' hr' hd hp => hexists r' (List.mem_cons_of_mem r hr') hd hp) hfail

/-! ### Unfolding equations of the QAT Prepare entry points -/

theorem Prepare_ok_eq (s : NodeStateQat) (claim : ResourceClaim)
    (pfsO : List PFDevice) (devsO : List PreparedDevice)
    (h : prepareLoop s.nodeName claim.uid claim.results s.pfs [] = .ok pfsO devsO) :
    s.Prepare claim =
      ({ s with pfs := pfsO,
                prepared := insertA s.prepared claim.uid { err := none, devices := devsO } },
       none) := by
  unfold NodeStateQat.Prepare
  rw [h]

theorem Prepare_fail_eq (s : NodeStateQat) (claim : ResourceClaim)
    (pfsF : List PFDevice) (msg : String)
    (h : prepareLoop s.nodeName claim.uid claim.results s.pfs [] = .fail pfsF msg) :
    s.Prepare claim = ({ s with pfs := pfsF }, some msg) := by
  unfold NodeStateQat.Prepare
  rw [h]

theorem prepareResourceClaim_found (s : NodeStateQat) (claim : ResourceClaim)
    (r : PrepareResult) (h : lookupA s.prepared claim.uid = some r) :
    prepareResourceClaim s claim = (s, r) := by
  unfold prepareResourceClaim
  rw [h]

theorem prepareResourceClaim_ok (s : NodeStateQat) (claim : ResourceClaim)
    (pfsO : List PFDevice) (devsO : List PreparedDevice)
    (hlk : lookupA s.prepared claim.uid = none)
    (h : prepareLoop s.nodeName claim.uid claim.results s.pfs [] = .ok pfsO devsO) :
    prepareResourceClaim s claim =
      ({ s with pfs := pfsO,
                prepared := insertA s.prepared claim.uid { err := none, devices := devsO } },
       { err := none, devices := devsO }) := by
  unfold prepareResourceClaim
  rw [hlk, Prepare_ok_eq s claim pfsO devsO h]
  simp only
  rw [lookupA_insertA_self]
  rfl

theorem prepareResourceClaim_fail (s : NodeStateQat) (claim : ResourceClaim)
    (pfsF : List PFDevice) (msg : String)
    (hlk : lookupA s.prepared claim.uid = none)
    (h : prepareLoop s.nodeName claim.uid claim.results s.pfs [] = .fail pfsF msg) :
    prepareResourceClaim s claim =
      ({ s with pfs := pfsF },
       { err := some ("error preparing devices for claim " ++ claim.uid ++ ": " ++ msg),
         devices := [] }) := by
  unfold prepareResourceClaim
  rw [hlk, Prepare_fail_eq s claim pfsF msg h]

/-! ### Claim C1 -/

/-- C1: For every resource claim whose identifier already has an entry in the
prepared-claims ledger, `prepareResourceClaim` returns the stored
PreparedResult and performs no allocation-state mutation; hence calling
Prepare twice with the same claim identifier and requested devices returns
identical PreparedResults and leaves each requested device allocated to that
claim exactly once. -/
theorem qat_prepare_idempotent (s : NodeStateQat) (claim : ResourceClaim)
    (hws : wfState s.pfs) :
    (∀ r, lookupA s.prepared claim.uid = some r → prepareResourceClaim s claim = (s, r)) ∧
    (∀ s1 r1, prepareResourceClaim s claim = (s1, r1) → r1.err = none →
      prepareResourceClaim s1 claim = (s1, r1) ∧
      (lookupA s.prepared claim.uid = none →
        ∀ res ∈ claim.results, res.driver = driverName → res.pool = s.nodeName →
          allocCount s1.pfs claim.uid res.device = 1)) := by
  refine ⟨fun r hr => prepareResourceClaim_found s claim r hr, ?_⟩
  intro s1 r1 hpre herr
  cases hlk : lookupA s.prepared claim.uid with
  | some r0 =>
    rw [prepareResourceClaim_found s claim r0 hlk] at hpre
    simp only [Prod.mk.injEq] at hpre
    obtain ⟨hs1, hr1⟩ := hpre
    subst hs1
    subst hr1
    exact ⟨prepareResourceClaim_found s claim r0 hlk,
      fun hn => by simp [hlk] at hn⟩
  | none =>
    cases hloop : prepareLoop s.nodeName claim.uid claim.results s.pfs [] with
    | fail pfsF msg =>
      rw [prepareResourceClaim_fail s claim pfsF msg hlk hloop] at hpre
      simp only [Prod.mk.injEq] at hpre
      obtain ⟨hs1, hr1⟩ := hpre
      rw [← hr1] at herr
      simp at herr
    | ok pfsO devsO =>
      rw [prepareResourceClaim_ok s claim pfsO devsO hlk hloop] at hpre
      simp only [Prod.mk.injEq] at hpre
      obtain ⟨hs1, hr1⟩ := hpre
      subst hs1
      subst hr1
      constructor
      · apply prepareResourceClaim_found
        exact lookupA_insertA_self s.prepared claim.uid _
      · intro _ res hres hd hp
        exact (prepareLoop_ok_spec s.nodeName claim.uid claim.results s.pfs [] pfsO devsO
          hws hloop).2.1 res hres hd hp

/-- Witness fixture: the two-PF table of `TestPrepareUnprepareResourceClaims`. -/
def pfAAW : PFDevice :=
  { device := "0000:aa:00.0", services := Services.mask 3, allowReconfiguration := false,
    vfs := ["qatvf-0000-aa-00-1", "qatvf-0000-aa-00-2", "qatvf-0000-aa-00-3"],
    availableDevices := ["qatvf-0000-aa-00-1", "qatvf-0000-aa-00-2", "qatvf-0000-aa-00-3"],
    allocatedDevices := [] }

def pfBBW : PFDevice :=
  { device := "0000:bb:00.0", services := Services.Dc, allowReconfiguration := false,
    vfs := ["qatvf-0000-bb-00-1", "qatvf-0000-bb-00-2", "qatvf-0000-bb-00-3"],
    availableDevices := ["qatvf-0000-bb-00-1", "qatvf-0000-bb-00-2", "qatvf-0000-bb-00-3"],
    allocatedDevices := [] }

def sW : NodeStateQat :=
  { pfs := [pfAAW, pfBBW], prepared := [], preparedFile := [], nodeName := "test-node-01" }

def resW : AllocatedDeviceResult :=
  { driver := "qat.intel.com", pool := "test-node-01",
    device := "qatvf-0000-aa-00-1", request := "request1" }

def claimW : ResourceClaim := { uid := "uid1", results := [resW] }

theorem qat_prepare_idempotent_witness :
    prepareResourceClaim (prepareResourceClaim sW claimW).1 claimW =
      ((prepareResourceClaim sW claimW).1, (prepareResourceClaim sW claimW).2) ∧
    allocCount (prepareResourceClaim sW claimW).1.pfs claimW.uid resW.device = 1 := by
  have h := (qat_prepare_idempotent sW claimW (by decide)).2
    (prepareResourceClaim sW claimW).1 (prepareResourceClaim sW claimW).2 rfl (by decide)
  exact ⟨h.1, h.2 (by decide) resW (by decide) (by decide) (by decide)⟩

/-! ### Claim C2 -/

theorem AllocateFromConfigured_none_iff (pf : PFDevice) (uid : String) (svc : Services)
    (c : String) : pf.AllocateFromConfigured uid svc c = none ↔
      (c = "" ∨ pf.services = Services.None ∨ uid ∉ pf.availableDevices) := by
  unfold PFDevice.AllocateFromConfigured
  split_ifs with h1 h2 h3 <;> simp_all

theorem AllocateWithReconfiguration_none_iff (pf : PFDevice) (uid : String) (svc : Services)
    (c : String) : pf.AllocateWithReconfiguration uid svc c = none ↔
      (c = "" ∨ pf.allowReconfiguration = false ∨ pf.services ≠ Services.None ∨
        pf.allocatedDevices ≠ [] ∨ uid ∉ pf.availableDevices) := by
  unfold PFDevice.AllocateWithReconfiguration
  split_ifs with h1 h2 h3 h4 h5 <;> simp_all

def pfC2 : PFDevice :=
  { device := "0000:4b:00.0", services := Services.Sym, allowReconfiguration := false,
    vfs := ["qatvf-0000-4b-00-1"], availableDevices := ["qatvf-0000-4b-00-1"],
    allocatedDevices := [] }

/-- C2 counterexample: the PF is configured for `sym` only, reconfiguration
is disabled and the VF is free; a request for `asym` by a new claimant
satisfies none of the claim's cases (1)-(3), so per the claim `Allocate`
must fail; the code instead binds the VF in step (2) without
reconfiguration, because step (2) ignores whether the profile satisfies the
request (as the repository's own `TestAllocateFromConfigured` pins:
"service mismatch ignored"). -/
theorem qat_allocate_service_check_counterexample :
    pfC2.CheckAlreadyAllocated "qatvf-0000-4b-00-1" Services.Asym "claimB" = false ∧
    pfC2.services.Supports Services.Asym = false ∧
    Services.Asym ≠ Services.Unset ∧
    pfC2.allowReconfiguration = false ∧
    Allocate [pfC2] "qatvf-0000-4b-00-1" Services.Asym "claimB" =
      some ([{ pfC2 with
                 availableDevices := [],
                 allocatedDevices := [("claimB", ["qatvf-0000-4b-00-1"])] }], false) := by
  decide

/-- C2 (amended): `nodeState.Allocate` tries exactly, in priority order:
(1) an idempotent hit for the same claimant with a compatible or unspecified
service — success, no state change, no reconfiguration; (2) else, if the VF
is available, the claimant nonempty and the PF has a configured (non-empty)
profile, bind WITHOUT comparing the request to the profile, reporting no
reconfiguration; (3) else, if the VF is available, the claimant nonempty,
reconfiguration is enabled, the profile is unconfigured and no VF is
allocated under the PF, set the profile to the request and bind, reporting a
reconfiguration; (4) otherwise fail with no state change. -/
theorem qat_allocate_priority (pfs : List PFDevice) (uid : String) (svc : Services)
    (c : String) (pf : PFDevice) (hf : findPF pfs uid = some pf) :
    (pf.CheckAlreadyAllocated uid svc c = true →
      Allocate pfs uid svc c = some (pfs, false)) ∧
    (pf.CheckAlreadyAllocated uid svc c = false → c ≠ "" →
      pf.services ≠ Services.None → uid ∈ pf.availableDevices →
      Allocate pfs uid svc c = some (replacePF pfs (pf.bindVF uid c), false)) ∧
    (pf.CheckAlreadyAllocated uid svc c = false → c ≠ "" →
      pf.services = Services.None → pf.allowReconfiguration = true →
      pf.allocatedDevices = [] → uid ∈ pf.availableDevices →
      Allocate pfs uid svc c =
        some (replacePF pfs { pf.bindVF uid c with services := svc }, true)) ∧
    (pf.CheckAlreadyAllocated uid svc c = false →
      (c = "" ∨ uid ∉ pf.availableDevices ∨
        (pf.services = Services.None ∧
          (pf.allowReconfiguration = false ∨ pf.allocatedDevices ≠ []))) →
      Allocate pfs uid svc c = none) := by
  rw [Allocate_eq pfs uid svc c pf hf]
  refine ⟨fun hchk => by rw [if_pos hchk], ?_, ?_, ?_⟩
  · intro hchk hc hsvc hmem
    rw [if_neg (by simp [hchk])]
    have : pf.AllocateFromConfigured uid svc c = some (pf.bindVF uid c) := by
      unfold PFDevice.AllocateFromConfigured
      rw [if_neg hc, if_neg hsvc, if_pos hmem]
    rw [this]
  · intro hchk hc hsvc hrec halloc hmem
    rw [if_neg (by simp [hchk])]
    have h1 : pf.AllocateFromConfigured uid svc c = none :=
      (AllocateFromConfigured_none_iff pf uid svc c).mpr (Or.inr (Or.inl hsvc))
    rw [h1]
    have h2 : pf.AllocateWithReconfiguration uid svc c =
        some { pf.bindVF uid c with services := svc } := by
      unfold PFDevice.AllocateWithReconfiguration
      rw [if_neg hc, if_neg (by simp [hrec]), if_neg (by simp [hsvc]),
        if_neg (by simp [halloc]), if_pos hmem]
    rw [h2]
  · intro hchk hdisj
    rw [if_neg (by simp [hchk])]
    have h1 : pf.AllocateFromConfigured uid svc c = none := by
      apply (AllocateFromConfigured_none_iff pf uid svc c).mpr
      rcases hdisj with h | h | h
      · exact Or.inl h
      · exact Or.inr (Or.inr h)
      · exact Or.inr (Or.inl h.1)
    have h2 : pf.AllocateWithReconfiguration uid svc c = none := by
      apply (AllocateWithReconfiguration_none_iff pf uid svc c).mpr
      rcases hdisj with h | h | h
      · exact Or.inl h
      · exact Or.inr (Or.inr (Or.inr (Or.inr h)))
      · rcases h.2 with h2 | h2
        · exact Or.inr (Or.inl h2)
        · exact Or.inr (Or.inr (Or.inr (Or.inl h2)))
    rw [h1, h2]

theorem qat_allocate_priority_witness :
    Allocate [pfC2] "qatvf-0000-4b-00-1" Services.Asym "claimB" =
      some (replacePF [pfC2] (pfC2.bindVF "qatvf-0000-4b-00-1" "claimB"), false) :=
  (qat_allocate_priority [pfC2] "qatvf-0000-4b-00-1" Services.Asym "claimB" pfC2
    (by decide)).2.1 (by decide) (by decide) (by decide) (by decide)

/-! ### Claim C3 -/

theorem flatten_count_pos (m : List (String × List String)) (c u : String)
    (l : List String) (hl : lookupA m c = some l) (hu : u ∈ l) :
    1 ≤ ((m.map Prod.snd).flatten).count u :=
  le_trans (List.count_pos_iff.mpr hu) (count_le_flatten (m.map Prod.snd) l u
    (lookupA_snd_mem m c l hl))

theorem flatten_count_two (m : List (String × List String)) (c c' u : String)
    (l l' : List String) (hne : c ≠ c') (hl : lookupA m c = some l)
    (hl' : lookupA m c' = some l') (hu : u ∈ l) (hu' : u ∈ l') :
    2 ≤ ((m.map Prod.snd).flatten).count u := by
  induction m with
  | nil => simp [lookupA] at hl
  | cons p t ih =>
    obtain ⟨k, l0⟩ := p
    rw [lookupA] at hl hl'
    simp only [List.map_cons, List.flatten_cons, List.count_append]
    by_cases hk : k = c
    · simp only [if_pos hk] at hl
      have hkc' : ¬ k = c' := fun hcc => hne (hk.symm.trans hcc)
      simp only [if_neg hkc'] at hl'
      have h1 : 1 ≤ l0.count u := by
        injection hl with hl
        exact List.count_pos_iff.mpr (hl ▸ hu)
      have h2 := flatten_count_pos t c' u l' hl' hu'
      omega
    · simp only [if_neg hk] at hl
      by_cases hk' : k = c'
      · simp only [if_pos hk'] at hl'
        have h1 : 1 ≤ l0.count u := by
          injection hl' with hl'
          exact List.count_pos_iff.mpr (hl' ▸ hu')
        have h2 := flatten_count_pos t c u l hl hu
        omega
      · simp only [if_neg hk'] at hl'
        have := ih hl hl'
        omega

/-- The exclusivity facts that follow from well-formedness. -/
theorem wf_exclusive (pf : PFDevice) (hwf : pf.wf) :
    (∀ u ∈ pf.availableDevices, ∀ c, pf.allocatedContains c u = false) ∧
    (∀ u c c', pf.allocatedContains c u = true → pf.allocatedContains c' u = true → c = c') ∧
    (∀ u ∈ pf.vfs, u ∈ pf.availableDevices ∨ ∃ c, pf.allocatedContains c u = true) := by
  refine ⟨?_, ?_, ?_⟩
  · intro u hu c
    by_contra hcon
    rw [Bool.not_eq_false] at hcon
    have h1 := allocCountPF_of_contains pf c u hwf hcon
    have h2 := allocCountPF_of_available pf c u hwf hu
    omega
  · intro u c c' hc hc'
    by_contra hne
    obtain ⟨l, hl, hu⟩ := (allocatedContains_iff pf c u).mp hc
    obtain ⟨l', hl', hu'⟩ := (allocatedContains_iff pf c' u).mp hc'
    have h2 := flatten_count_two pf.allocatedDevices c c' u l l' hne hl hl' hu hu'
    have h3 : ((pf.allocatedDevices.map Prod.snd).flatten).count u ≤ pf.pool.count u := by
      unfold PFDevice.pool
      rw [List.count_append]
      omega
    have h4 := wf_pool_count_le_one pf u hwf
    omega
  · intro u hu
    have hpool : u ∈ pf.pool := hwf.2.2.1 u hu
    unfold PFDevice.pool at hpool
    rcases List.mem_append.mp hpool with h1 | h1
    · exact Or.inl h1
    · right
      obtain ⟨lst, hlst, humem⟩ := List.mem_flatten.mp h1
      obtain ⟨⟨k, l⟩, hkl, hrfl⟩ := List.mem_map.mp hlst
      have hul : u ∈ l := by
        rw [show l = lst from hrfl]
        exact humem
      refine ⟨k, (allocatedContains_iff pf k u).mpr ⟨l, ?_, hul⟩⟩
      exact mem_lookupA_of_nodup pf.allocatedDevices k l hwf.2.2.2.2 hkl

/-- C3: After every sequence of Allocate and Free operations (and rescans of
a PF's VFs) starting from a well-formed table, every PF remains well-formed
and every VF is in exactly one of the PF's available set or exactly one
claimant's allocated set: it is never both available and allocated, never in
two claimants' sets, and every VF of the PF is in one of the two. -/
theorem qat_vf_exclusivity (pfs : List PFDevice) (ops : List EngineOp)
    (h : ∀ pf ∈ pfs, pf.wf) :
    ∀ pf ∈ applyOps pfs ops,
      pf.wf ∧
      (∀ u ∈ pf.availableDevices, ∀ c, pf.allocatedContains c u = false) ∧
      (∀ u c c', pf.allocatedContains c u = true → pf.allocatedContains c' u = true → c = c') ∧
      (∀ u ∈ pf.vfs, u ∈ pf.availableDevices ∨ ∃ c, pf.allocatedContains c u = true) := by
  intro pf hpf
  have hwf := wfAll_applyOps ops pfs h pf hpf
  exact ⟨hwf, wf_exclusive pf hwf⟩

/-- Witness operations: allocate, idempotent re-allocate, free, rescan,
another allocation. -/
def opsW : List EngineOp :=
  [.allocate "qatvf-0000-aa-00-1" Services.Unset "uid1",
   .allocate "qatvf-0000-aa-00-1" Services.Unset "uid1",
   .free "qatvf-0000-aa-00-1" "uid1",
   .rescan "0000:aa:00.0" ["qatvf-0000-aa-00-1", "qatvf-0000-aa-00-2"],
   .allocate "qatvf-0000-bb-00-1" Services.Unset "uid2"]

def pfW3 : PFDevice := (applyOps [pfAAW, pfBBW] opsW).get ⟨1, by decide⟩

theorem qat_vf_exclusivity_witness :
    pfW3.wf ∧ pfW3.allocatedContains "uid2" "qatvf-0000-bb-00-1" = true ∧
    (pfW3.allocatedContains "uidX" "qatvf-0000-bb-00-1" = true → "uid2" = "uidX") := by
  have h := qat_vf_exclusivity [pfAAW, pfBBW] opsW (by decide) pfW3 (by decide)
  exact ⟨h.1, by decide,
    fun hx => h.2.2.1 "qatvf-0000-bb-00-1" "uid2" "uidX" (by decide) hx⟩

/-! ### Claim C4 -/

def claimBadW : ResourceClaim :=
  { uid := "uidX",
    results := [
      { driver := "qat.intel.com", pool := "test-node-01",
        device := "qatvf-0000-aa-00-1", request := "r1" },
      { driver := "qat.intel.com", pool := "test-node-01",
        device := "qatvf-miss", request := "r2" }] }

/-- C4 counterexample: the claim requests an allocatable device and then a
device absent from the allocatable table.  Prepare fails, and no ledger
entry is created, but the first device REMAINS allocated to the claim: the
missing-device error path (`node_state.go` line 112) returns without the
rollback that the claim asserts for every failure. -/
theorem qat_prepare_missing_device_no_rollback_counterexample :
    ((prepareResourceClaim sW claimBadW).2.err).isSome = true ∧
    allocCount (prepareResourceClaim sW claimBadW).1.pfs "uidX" "qatvf-0000-aa-00-1" = 1 ∧
    lookupA (prepareResourceClaim sW claimBadW).1.prepared "uidX" = none := by
  decide

/-- C4 (amended): a failed Prepare never creates a ledger entry for the
claim; and when every handled requested device is present in the allocatable
table — so that the failure can only come from `nodeState.Allocate` — the
rollback frees every device held by the claim before the error returns.
(When a requested device is missing from the table, Prepare instead returns
the error immediately without freeing devices allocated earlier in the same
call.) -/
theorem qat_prepare_rollback (s : NodeStateQat) (claim : ResourceClaim)
    (s1 : NodeStateQat) (r : PrepareResult) (hws : wfState s.pfs)
    (hrun : prepareResourceClaim s claim = (s1, r))
    (hlk : lookupA s.prepared claim.uid = none) (herr : r.err.isSome = true) :
    lookupA s1.prepared claim.uid = none ∧
    ((∀ res ∈ claim.results, res.driver = driverName → res.pool = s.nodeName →
        (findPF s.pfs res.device).isSome) →
      ∀ u, allocCount s1.pfs claim.uid u = 0) := by
  cases hloop : prepareLoop s.nodeName claim.uid claim.results s.pfs [] with
  | ok pfsO devsO =>
    rw [prepareResourceClaim_ok s claim pfsO devsO hlk hloop] at hrun
    simp only [Prod.mk.injEq] at hrun
    rw [← hrun.2] at herr
    simp at herr
  | fail pfsF msg =>
    rw [prepareResourceClaim_fail s claim pfsF msg hlk hloop] at hrun
    simp only [Prod.mk.injEq] at hrun
    obtain ⟨hs1, hr⟩ := hrun
    subst hs1
    refine ⟨hlk, fun hex u => ?_⟩
    exact prepareLoop_fail_spec s.nodeName claim.uid claim.results s.pfs [] pfsF msg
      hws hex hloop u

def sW4 : NodeStateQat :=
  { pfs := [{ pfAAW with
                availableDevices := ["qatvf-0000-aa-00-2", "qatvf-0000-aa-00-3"],
                allocatedDevices := [("uidB", ["qatvf-0000-aa-00-1"])] }],
    prepared := [], preparedFile := [], nodeName := "test-node-01" }

def claimW4 : ResourceClaim := { uid := "uidA", results := [resW] }

theorem qat_prepare_rollback_witness :
    lookupA (prepareResourceClaim sW4 claimW4).1.prepared "uidA" = none ∧
    allocCount (prepareResourceClaim sW4 claimW4).1.pfs "uidA" "qatvf-0000-aa-00-1" = 0 := by
  have h := qat_prepare_rollback sW4 claimW4
    (prepareResourceClaim sW4 claimW4).1 (prepareResourceClaim sW4 claimW4).2
    (by decide) rfl (by decide) (by decide)
  exact ⟨h.1, h.2 (by decide) "qatvf-0000-aa-00-1"⟩

/-! ### Claim C5 -/

def gaudiDevW : GaudiDeviceInfo :=
  { uid := "0000-0f-00-0-0x1020", deviceIdx := 0, moduleIdx := 2, uverbsIdx := 1024 }

def sGW : NodeStateGaudi :=
  { allocatable := [("0000-0f-00-0-0x1020", gaudiDevW)], prepared := [],
    preparedFile := [], cdiEnvDevices := [], nodeName := "test-node-01" }

def claimGW : ResourceClaim :=
  { uid := "uidg",
    results := [{ driver := "gaudi.intel.com", pool := "test-node-01",
                  device := "0000-0f-00-0-0x1020", request := "req1" }] }

/-- C6: at the failing input (the successful single-device Prepare of
`TestPrepareUnprepareResourceClaims`), the QAT Prepare stores the new ledger
entry only in the in-memory map — the prepared-claims FILE is left without
the entry, although the spec (and the repository's own test, which reads the
file back after Prepare) requires the updated ledger to be persisted before
returning.  The Gaudi Prepare, by contrast, writes the file. -/
theorem qat_prepare_not_persisted :
    (prepareResourceClaim sW claimW).2.err = none ∧
    (lookupA (prepareResourceClaim sW claimW).1.prepared "uid1").isSome = true ∧
    lookupA (prepareResourceClaim sW claimW).1.preparedFile "uid1" = none ∧
    (sGW.Prepare claimGW).2 = none ∧
    (lookupA (sGW.Prepare claimGW).1.preparedFile "uidg").isSome = true ∧
    (sGW.Prepare claimGW).1.preparedFile = (sGW.Prepare claimGW).1.prepared := by
  decide

/-! ### C7: CDI registry synchronization -/

theorem lookupA_pair_mem {κ α : Type} [DecidableEq κ] (m : List (κ × α)) (k : κ) (v : α)
    (h : lookupA m k = some v) : (k, v) ∈ m := by
  induction m with
  | nil => simp [lookupA] at h
  | cons p t ih =>
    by_cases hk : p.1 = k
    · rw [lookupA, if_pos hk] at h
      have hp : p = (k, v) := by
        cases p
        simp_all
      rw [hp]
      exact List.mem_cons_self _ _
    · rw [lookupA, if_neg hk] at h
      exact List.mem_cons_of_mem _ (ih h)

theorem lookupA_isSome_of_mem {κ α : Type} [DecidableEq κ] (m : List (κ × α)) (p : κ × α)
    (h : p ∈ m) : (lookupA m p.1).isSome = true := by
  induction m with
  | nil => simp at h
  | cons q t ih =>
    by_cases hk : q.1 = p.1
    · rw [lookupA, if_pos hk]
      rfl
    · rw [lookupA, if_neg hk]
      rcases List.mem_cons.mp h with h1 | h2
      · exact absurd (by rw [h1]) hk
      · exact ih h2

/-- Invariant of the `SyncDevices` reconciliation loop: the remaining
inventory always names inventory devices, the tracked generated-name spec
only holds inventory devices, and every QAT spec of the final cache holds
only inventory devices and is nonempty unless it sat untouched (and empty)
in the original cache `cache0`. -/
theorem syncLoop_spec (inv : List (String × String)) (cache0 : CDICache) :
    ∀ (specs : List (String × CDISpec)) (cache : CDICache)
      (vfdevs : List (String × String)) (vfspec : CDISpec),
    (∀ p ∈ vfdevs, (lookupA inv p.1).isSome = true) →
    (∀ d ∈ vfspec.devices, (lookupA inv d.name).isSome = true) →
    (specs.map Prod.fst).Nodup →
    (∀ p ∈ specs, lookupA cache p.1 = some p.2 ∧ lookupA cache0 p.1 = some p.2) →
    (∀ n sp, lookupA cache n = some sp → sp.kind = qatCDIKind →
      ((n, sp) ∈ specs ∨
        ((∀ d ∈ sp.devices, (lookupA inv d.name).isSome = true) ∧
          (sp.devices ≠ [] ∨ lookupA cache0 n = some sp)))) →
    (∀ p ∈ (syncLoop specs cache vfdevs vfspec).2.1, (lookupA inv p.1).isSome = true) ∧
    (∀ d ∈ (syncLoop specs cache vfdevs vfspec).2.2.devices,
        (lookupA inv d.name).isSome = true) ∧
    (∀ n sp, lookupA (syncLoop specs cache vfdevs vfspec).1 n = some sp →
      sp.kind = qatCDIKind →
      (∀ d ∈ sp.devices, (lookupA inv d.name).isSome = true) ∧
      (sp.devices ≠ [] ∨ lookupA cache0 n = some sp)) := by
  intro specs
  induction specs with
  | nil =>
    intro cache vfdevs vfspec hsub hvf _ _ hinv
    refine ⟨fun p hp => hsub p hp, fun d hd => hvf d hd, ?_⟩
    intro n sp hl hk
    rcases hinv n sp hl hk with h | h
    · simp at h
    · exact h
  | cons hd rest ih =>
    obtain ⟨sname, spec⟩ := hd
    intro cache vfdevs vfspec hsub hvf hnames hpris hinv
    have hcons := List.nodup_cons.mp (by simpa only [List.map_cons] using hnames)
    have hsnot : sname ∉ rest.map Prod.fst := hcons.1
    have hnames1 : (rest.map Prod.fst).Nodup := hcons.2
    have hne : ∀ p ∈ rest, sname ≠ p.1 := by
      intro p hp h
      exact hsnot (h ▸ List.mem_map.mpr ⟨p, hp, rfl⟩)
    have hprisH := hpris (sname, spec) (List.mem_cons_self _ _)
    have hkeptP : ∀ d ∈ spec.devices.filter (fun d => (lookupA vfdevs d.name).isSome),
        (lookupA inv d.name).isSome = true := by
      intro d hdm
      have h1 := List.of_mem_filter hdm
      obtain ⟨v, hv⟩ := Option.isSome_iff_exists.mp h1
      exact hsub (d.name, v) (lookupA_pair_mem vfdevs d.name v hv)
    have hsub1 : ∀ p ∈ vfdevs.filter
        (fun p => !(spec.devices.any (fun d => decide (d.name = p.1)))),
        (lookupA inv p.1).isSome = true := by
      intro p hp
      exact hsub p (List.mem_of_mem_filter hp)
    have hpris1 : ∀ p ∈ rest, lookupA cache p.1 = some p.2 ∧ lookupA cache0 p.1 = some p.2 :=
      fun p hp => hpris p (List.mem_cons_of_mem _ hp)
    by_cases hrem : spec.devices.any (fun d => (lookupA vfdevs d.name).isNone) = true
    · by_cases hkept : spec.devices.filter (fun d => (lookupA vfdevs d.name).isSome) = []
      · -- every device entry stale: the spec file is deleted
        have hstep : syncLoop ((sname, spec) :: rest) cache vfdevs vfspec =
            syncLoop rest (removeA cache sname)
              (vfdevs.filter
                (fun p => !(spec.devices.any (fun d => decide (d.name = p.1)))))
              (if sname = qatGeneratedSpecName then
                { spec with
                  devices := spec.devices.filter (fun d => (lookupA vfdevs d.name).isSome) }
              else vfspec) := by
          simp [syncLoop, hrem, hkept]
        rw [hstep]
        have hvf1 : ∀ d ∈ (if sname = qatGeneratedSpecName then
            { spec with
              devices := spec.devices.filter (fun d => (lookupA vfdevs d.name).isSome) }
          else vfspec).devices, (lookupA inv d.name).isSome = true := by
          by_cases hgen : sname = qatGeneratedSpecName
          · rw [if_pos hgen]
            exact hkeptP
          · rw [if_neg hgen]
            exact hvf
        refine ih _ _ _ hsub1 hvf1 hnames1 ?_ ?_
        · intro p hp
          have h2 := hpris1 p hp
          exact ⟨(lookupA_removeA_ne cache sname p.1 (hne p hp)).trans h2.1, h2.2⟩
        · intro n sp hl hk
          by_cases hn : n = sname
          · rw [hn, lookupA_removeA_self] at hl
            exact absurd hl (by simp)
          · rw [lookupA_removeA_ne cache sname n (fun h => hn h.symm)] at hl
            rcases hinv n sp hl hk with hm | hdone
            · rcases List.mem_cons.mp hm with he | hr
              · exact absurd (congrArg Prod.fst he) hn
              · exact Or.inl hr
            · exact Or.inr hdone
      · -- some stale entries: the spec file is rewritten with the kept entries
        have hstep : syncLoop ((sname, spec) :: rest) cache vfdevs vfspec =
            syncLoop rest
              (insertA cache sname
                { spec with
                  devices := spec.devices.filter (fun d => (lookupA vfdevs d.name).isSome) })
              (vfdevs.filter
                (fun p => !(spec.devices.any (fun d => decide (d.name = p.1)))))
              (if sname = qatGeneratedSpecName then
                { spec with
                  devices := spec.devices.filter (fun d => (lookupA vfdevs d.name).isSome) }
              else vfspec) := by
          simp [syncLoop, hrem, hkept]
        rw [hstep]
        have hvf1 : ∀ d ∈ (if sname = qatGeneratedSpecName then
            { spec with
              devices := spec.devices.filter (fun d => (lookupA vfdevs d.name).isSome) }
          else vfspec).devices, (lookupA inv d.name).isSome = true := by
          by_cases hgen : sname = qatGeneratedSpecName
          · rw [if_pos hgen]
            exact hkeptP
          · rw [if_neg hgen]
            exact hvf
        refine ih _ _ _ hsub1 hvf1 hnames1 ?_ ?_
        · intro p hp
          have h2 := hpris1 p hp
          exact ⟨(lookupA_insertA_ne cache sname p.1 _ (hne p hp)).trans h2.1, h2.2⟩
        · intro n sp hl hk
          by_cases hn : n = sname
          · subst hn
            rw [lookupA_insertA_self] at hl
            injection hl with hl'
            subst hl'
            exact Or.inr ⟨hkeptP, Or.inl hkept⟩
          · rw [lookupA_insertA_ne cache sname n _ (fun h => hn h.symm)] at hl
            rcases hinv n sp hl hk with hm | hdone
            · rcases List.mem_cons.mp hm with he | hr
              · exact absurd (congrArg Prod.fst he) hn
              · exact Or.inl hr
            · exact Or.inr hdone
    · -- no stale entries: the cache is untouched
      have hrem' : spec.devices.any (fun d => (lookupA vfdevs d.name).isNone) = false :=
        Bool.eq_false_iff.mpr hrem
      have hstep : syncLoop ((sname, spec) :: rest) cache vfdevs vfspec =
          syncLoop rest cache
            (vfdevs.filter
              (fun p => !(spec.devices.any (fun d => decide (d.name = p.1)))))
            (if sname = qatGeneratedSpecName then spec else vfspec) := by
        simp [syncLoop, hrem']
      rw [hstep]
      have hallP : ∀ d ∈ spec.devices, (lookupA inv d.name).isSome = true := by
        intro d hdm
        have h1 := List.any_eq_false.mp hrem' d hdm
        cases hv : lookupA vfdevs d.name with
        | none => exact absurd (by rw [hv]; rfl) h1
        | some v => exact hsub (d.name, v) (lookupA_pair_mem vfdevs d.name v hv)
      have hvf1 : ∀ d ∈ (if sname = qatGeneratedSpecName then spec else vfspec).devices,
          (lookupA inv d.name).isSome = true := by
        by_cases hgen : sname = qatGeneratedSpecName
        · rw [if_pos hgen]
          exact hallP
        · rw [if_neg hgen]
          exact hvf
      refine ih _ _ _ hsub1 hvf1 hnames1 hpris1 ?_
      intro n sp hl hk
      rcases hinv n sp hl hk with hm | hdone
      · rcases List.mem_cons.mp hm with he | hr
        · injection he with h1 h2
          subst h1
          subst h2
          exact Or.inr ⟨hallP, Or.inr hprisH.2⟩
        · exact Or.inl hr
      · exact Or.inr hdone

theorem SyncDevices_eq (minV : List CDIDevice → String) (cache : CDICache)
    (vfdevs : List (String × String)) (cache1 : CDICache) (rem : List (String × String))
    (vfspecF : CDISpec)
    (h : syncLoop (getQatSpecs cache) cache vfdevs
      { kind := qatCDIKind, version := "", devices := [] } = (cache1, rem, vfspecF)) :
    SyncDevices minV cache vfdevs =
      if rem = [] then cache1 else appendDevices minV cache1 vfspecF rem := by
  simp only [SyncDevices]
  rw [h]

def minVW7 : List CDIDevice → String := fun _ => "v1"

def devAW7 : CDIDevice := { name := "vfuid-a", deviceNodes := ["/dev/vfio/11"] }

def devXW7 : CDIDevice := { name := "vfuid-x", deviceNodes := ["/dev/vfio/99"] }

def cacheW7 : CDICache :=
  [("spec1", { kind := qatCDIKind, version := "v0", devices := [devAW7, devXW7] })]

def invW7 : List (String × String) := [("vfuid-a", "/dev/vfio/11")]

/-- C7 counterexample: the spec file `spec1` loses its stale entry
`vfuid-x`, so `SyncDevices` rewrites it — but the rewritten file keeps the
old version stamp `v0` even though the minimum required version of its
contents is `v1`: the prune-rewrite path of `SyncDevices` does not restamp
the version, contradicting "every spec that is written is first stamped
with the minimum required spec-format version computed from its
contents". -/
theorem cdi_sync_version_not_restamped_counterexample :
    lookupA (SyncDevices minVW7 cacheW7 invW7) "spec1" =
      some { kind := qatCDIKind, version := "v0", devices := [devAW7] } ∧
    lookupA cacheW7 "spec1" ≠
      some { kind := qatCDIKind, version := "v0", devices := [devAW7] } ∧
    minVW7 [devAW7] = "v1" := by
  refine ⟨by decide, by decide, rfl⟩

/-- C7 (amended): after `SyncDevices` runs over the inventory `inv`
(assuming distinct spec-file names), (1) every device entry of every QAT
spec left in the registry names an inventory device, and a QAT spec with an
empty device list can only be an untouched empty spec of the input
registry — a spec pruned to empty is deleted, never written empty; (2) the
spec written by the append path (when devices remain outside every spec) IS
stamped with the minimum required version of its contents; (3) the Gaudi
`writeSpec` stamps the version before persisting and (4) deletes rather
than writes a spec whose device list is empty.  (Only the prune-rewrite
path of `SyncDevices` violates the stamping sentence, per the
counterexample.) -/
theorem cdi_sync_spec (minV : List CDIDevice → String) (cache : CDICache)
    (inv : List (String × String)) (hknd : (cache.map Prod.fst).Nodup) :
    (∀ n sp, lookupA (SyncDevices minV cache inv) n = some sp →
      sp.kind = qatCDIKind →
      (∀ d ∈ sp.devices, (lookupA inv d.name).isSome = true) ∧
      (sp.devices ≠ [] ∨ lookupA cache n = some sp)) ∧
    (∀ (cache1 : CDICache) (rem : List (String × String)) (vfspecF : CDISpec),
      syncLoop (getQatSpecs cache) cache inv
        { kind := qatCDIKind, version := "", devices := [] } = (cache1, rem, vfspecF) →
      rem ≠ [] →
      ∃ sp, lookupA (SyncDevices minV cache inv) qatGeneratedSpecName = some sp ∧
        sp.version = minV sp.devices ∧ sp.devices ≠ []) ∧
    (∀ (spec : CDISpec) (name : String), spec.devices ≠ [] →
      lookupA (writeSpec minV cache spec name) name =
        some { spec with version := minV spec.devices }) ∧
    (∀ (spec : CDISpec) (name : String), spec.devices = [] →
      lookupA (writeSpec minV cache spec name) name = none) := by
  rcases hsl : syncLoop (getQatSpecs cache) cache inv
      { kind := qatCDIKind, version := "", devices := [] } with ⟨cache1, rem, vfspecF⟩
  have hspec := syncLoop_spec inv cache (getQatSpecs cache) cache inv
    { kind := qatCDIKind, version := "", devices := [] }
    (fun p hp => lookupA_isSome_of_mem inv p hp)
    (fun d hd => absurd hd (List.not_mem_nil d))
    (((List.filter_sublist cache).map Prod.fst).nodup hknd)
    (by
      intro p hp
      have hpm : p ∈ cache := List.mem_of_mem_filter hp
      have hpm' : (p.1, p.2) ∈ cache := by
        rw [Prod.mk.eta]
        exact hpm
      exact ⟨mem_lookupA_of_nodup cache p.1 p.2 hknd hpm',
        mem_lookupA_of_nodup cache p.1 p.2 hknd hpm'⟩)
    (by
      intro n sp hl hk
      exact Or.inl (List.mem_filter.mpr ⟨lookupA_pair_mem cache n sp hl, by simp [hk]⟩))
  rw [hsl] at hspec
  have hEq := SyncDevices_eq minV cache inv cache1 rem vfspecF hsl
  have hAppendNe : ∀ h0 : rem ≠ [],
      (vfspecF.devices ++
        rem.map (fun p => { name := p.1, deviceNodes := [p.2] : CDIDevice })) ≠ [] := by
    intro h0 habs
    cases hr2 : rem with
    | nil => exact h0 hr2
    | cons q t =>
      rw [hr2] at habs
      simp at habs
  refine ⟨?_, ?_, ?_, ?_⟩
  · intro n sp hl hk
    rw [hEq] at hl
    by_cases hr : rem = []
    · rw [if_pos hr] at hl
      exact hspec.2.2 n sp hl hk
    · rw [if_neg hr] at hl
      simp only [appendDevices] at hl
      by_cases hn : n = qatGeneratedSpecName
      · subst hn
        rw [lookupA_insertA_self] at hl
        injection hl with hl'
        subst hl'
        constructor
        · intro d hd
          rcases List.mem_append.mp hd with hdl | hdr
          · exact hspec.2.1 d hdl
          · obtain ⟨p, hp, hpd⟩ := List.mem_map.mp hdr
            rw [← hpd]
            exact hspec.1 p hp
        · exact Or.inl (hAppendNe hr)
      · rw [lookupA_insertA_ne cache1 qatGeneratedSpecName n _ (fun h => hn h.symm)] at hl
        exact hspec.2.2 n sp hl hk
  · intro c1 r vf hsl2 hr
    injection hsl2 with h1 h23
    injection h23 with h2 h3
    subst h1
    subst h2
    subst h3
    rw [hEq, if_neg hr]
    simp only [appendDevices]
    exact ⟨_, lookupA_insertA_self cache1 qatGeneratedSpecName _, rfl, hAppendNe hr⟩
  · intro spec name h
    simp [writeSpec, h, lookupA_insertA_self]
  · intro spec name h
    simp [writeSpec, h, lookupA_removeA_self]

/-- C7 witness: the amended theorem applied to a concrete registry — the
pruned spec `spec1` keeps only the inventory device `vfuid-a` and stays
nonempty; Gaudi `writeSpec` stamps a nonempty spec and deletes an empty
one. -/
theorem cdi_sync_spec_witness :
    ((lookupA invW7 devAW7.name).isSome = true ∧
      (([devAW7] : List CDIDevice) ≠ [] ∨ lookupA cacheW7 "spec1" =
        some { kind := qatCDIKind, version := "v0", devices := [devAW7] })) ∧
    lookupA (writeSpec minVW7 cacheW7
        { kind := gaudiCDIKind, version := "", devices := [devAW7] } "g") "g" =
      some { kind := gaudiCDIKind, version := minVW7 [devAW7], devices := [devAW7] } ∧
    lookupA (writeSpec minVW7 cacheW7
        { kind := gaudiCDIKind, version := "", devices := [] } "g") "g" = none := by
  have h := cdi_sync_spec minVW7 cacheW7 invW7 (by decide)
  refine ⟨?_, ?_, ?_⟩
  · have h1 := h.1 "spec1" { kind := qatCDIKind, version := "v0", devices := [devAW7] }
      (by decide) (by decide)
    exact ⟨h1.1 devAW7 (by decide), h1.2⟩
  · exact h.2.2.1 { kind := gaudiCDIKind, version := "", devices := [devAW7] } "g"
      (by decide)
  · exact h.2.2.2 { kind := gaudiCDIKind, version := "", devices := [] } "g" rfl

/-! ### C8: health-delta suppression and exactness -/

/-- A (device, category) pair counts as changed when the telemetry query
succeeds and its result differs from the cached previous status (a missing
cache category reads as the Go zero value `unknown`). -/
def changed (getHealth : Nat → String → Option HealthStatus) (devId : Nat)
    (entry : List (String × HealthStatus)) (t : String) : Bool :=
  match getHealth devId t with
  | none => false
  | some curr => decide (¬ ((lookupA entry t).getD HealthStatus.unknown = curr))

/-- The cache entry `HealthCheck` starts a device from: the cached entry, or
the all-OK seed for a first-seen device. -/
def seedEntry (cache : HealthCache) (id : Nat) : List (String × HealthStatus) :=
  match lookupA cache id with
  | some e => e
  | none => healthTypes.map (fun t => (t, HealthStatus.ok))

/-- The delta `HealthCheck` reports for one device: the changed categories
with their new status names, or nothing when no category changed. -/
def deviceDelta (getHealth : Nat → String → Option HealthStatus)
    (cache : HealthCache) (d : XPUSMIDeviceDetails) :
    Option (String × List (String × String)) :=
  let ch := healthTypes.filter (changed getHealth d.deviceId (seedEntry cache d.deviceId))
  if ch = [] then none
  else some (deviceUIDFromPCIinfo d.pciAddress d.pciDeviceId,
    ch.map (fun t => (t, ((getHealth d.deviceId t).getD HealthStatus.unknown).name)))

theorem lookupA_map_const {κ α : Type} [DecidableEq κ] (l : List κ) (c : α) (k : κ) :
    lookupA (l.map (fun t => (t, c))) k = if k ∈ l then some c else none := by
  induction l with
  | nil => simp [lookupA]
  | cons t rest ih =>
    simp only [List.map_cons, lookupA]
    by_cases hk : t = k
    · subst hk
      simp
    · rw [if_neg hk, ih]
      by_cases hm : k ∈ rest
      · rw [if_pos hm, if_pos (List.mem_cons_of_mem _ hm)]
      · rw [if_neg hm, if_neg ?_]
        intro hc
        rcases List.mem_cons.mp hc with he | hr
        · exact hk he.symm
        · exact hm hr

theorem filterMap_congr {α β : Type} (f g : α → Option β) :
    ∀ l : List α, (∀ a ∈ l, f a = g a) → l.filterMap f = l.filterMap g := by
  intro l
  induction l with
  | nil => intro _; rfl
  | cons a rest ih =>
    intro h
    rw [List.filterMap_cons, List.filterMap_cons, h a (List.mem_cons_self _ _),
      ih (fun b hb => h b (List.mem_cons_of_mem _ hb))]

/-- The category loop emits exactly the changed categories (with the new
status names) and updates the entry at exactly the changed categories. -/
theorem checkDevice_spec (getHealth : Nat → String → Option HealthStatus) (devId : Nat) :
    ∀ (ts : List String) (entry : List (String × HealthStatus)), ts.Nodup →
    (checkDevice getHealth devId ts entry).1 =
      (ts.filter (changed getHealth devId entry)).map
        (fun t => (t, ((getHealth devId t).getD HealthStatus.unknown).name)) ∧
    (∀ t, t ∉ ts →
      lookupA (checkDevice getHealth devId ts entry).2 t = lookupA entry t) ∧
    (∀ t, t ∈ ts →
      lookupA (checkDevice getHealth devId ts entry).2 t =
        if changed getHealth devId entry t then getHealth devId t
        else lookupA entry t) := by
  intro ts
  induction ts with
  | nil =>
    intro entry _
    refine ⟨rfl, fun t _ => rfl, fun t ht => absurd ht (List.not_mem_nil t)⟩
  | cons t rest ih =>
    intro entry hnd
    have hnd' := List.nodup_cons.mp hnd
    cases hv : getHealth devId t with
    | none =>
      have hch : changed getHealth devId entry t = false := by
        simp [changed, hv]
      obtain ⟨ih1, ih2, ih3⟩ := ih entry hnd'.2
      have hstep : checkDevice getHealth devId (t :: rest) entry =
          checkDevice getHealth devId rest entry := by
        simp [checkDevice, hv]
      rw [hstep]
      refine ⟨?_, ?_, ?_⟩
      · rw [List.filter_cons, hch]
        simpa using ih1
      · intro t' ht'
        exact ih2 t' (fun h => ht' (List.mem_cons_of_mem _ h))
      · intro t' ht'
        rcases List.mem_cons.mp ht' with he | hr
        · subst he
          rw [ih2 t' hnd'.1, hch]
          simp
        · exact ih3 t' hr
    | some curr =>
      by_cases hprev : (lookupA entry t).getD HealthStatus.unknown = curr
      · have hch : changed getHealth devId entry t = false := by
          simp [changed, hv, hprev]
        obtain ⟨ih1, ih2, ih3⟩ := ih entry hnd'.2
        have hstep : checkDevice getHealth devId (t :: rest) entry =
            checkDevice getHealth devId rest entry := by
          simp [checkDevice, hv, hprev]
        rw [hstep]
        refine ⟨?_, ?_, ?_⟩
        · rw [List.filter_cons, hch]
          simpa using ih1
        · intro t' ht'
          exact ih2 t' (fun h => ht' (List.mem_cons_of_mem _ h))
        · intro t' ht'
          rcases List.mem_cons.mp ht' with he | hr
          · subst he
            rw [ih2 t' hnd'.1, hch]
            simp
          · exact ih3 t' hr
      · have hch : changed getHealth devId entry t = true := by
          simp [changed, hv, hprev]
        obtain ⟨ih1, ih2, ih3⟩ := ih (insertA entry t curr) hnd'.2
        have hcongr : ∀ t' ∈ rest,
            changed getHealth devId (insertA entry t curr) t' =
              changed getHealth devId entry t' := by
          intro t' hr
          have hne : t ≠ t' := fun h => hnd'.1 (h ▸ hr)
          simp [changed, lookupA_insertA_ne entry t t' curr hne]
        have hlkne : ∀ t', t ≠ t' →
            lookupA (insertA entry t curr) t' = lookupA entry t' :=
          fun t' h => lookupA_insertA_ne entry t t' curr h
        have hstep : checkDevice getHealth devId (t :: rest) entry =
            ((t, curr.name) ::
                (checkDevice getHealth devId rest (insertA entry t curr)).1,
              (checkDevice getHealth devId rest (insertA entry t curr)).2) := by
          simp [checkDevice, hv, hprev]
        rw [hstep]
        refine ⟨?_, ?_, ?_⟩
        · rw [List.filter_cons, hch]
          simp only [if_true]
          rw [List.map_cons]
          have : (t, curr.name) =
              (t, ((getHealth devId t).getD HealthStatus.unknown).name) := by
            rw [hv]
            rfl
          rw [this, ih1, List.filter_congr hcongr]
        · intro t' ht'
          have hne : t ≠ t' := fun h => ht' (h ▸ List.mem_cons_self t rest)
          rw [ih2 t' (fun h => ht' (List.mem_cons_of_mem _ h)), hlkne t' hne]
        · intro t' ht'
          rcases List.mem_cons.mp ht' with he | hr
          · subst he
            rw [ih2 t' hnd'.1, hch, if_pos rfl, lookupA_insertA_self, hv]
          · rw [ih3 t' hr, hcongr t' hr]
            by_cases hc : changed getHealth devId entry t' = true
            · rw [if_pos hc, if_pos hc]
            · have hne : t ≠ t' := fun h => hnd'.1 (h ▸ hr)
              rw [if_neg hc, if_neg hc, hlkne t' hne]

/-- C8: `HealthCheck` — a first-seen device is seeded all-OK (so a first
poll in which every category reports OK contributes no delta entry), the
returned update map holds exactly the devices with at least one changed
(device, category) pair, listing exactly the changed categories with the
new status names, and the cache entry of each polled device is updated at
exactly the changed categories (unpolled devices keep their entries). -/
theorem gpu_health_delta_exactness (getHealth : Nat → String → Option HealthStatus)
    (devices : List XPUSMIDeviceDetails) (cache : HealthCache)
    (hnd : (devices.map XPUSMIDeviceDetails.deviceId).Nodup) :
    (HealthCheck getHealth devices cache).1 =
      devices.filterMap (deviceDelta getHealth cache) ∧
    (∀ d ∈ devices, lookupA cache d.deviceId = none →
      seedEntry cache d.deviceId = healthTypes.map (fun t => (t, HealthStatus.ok)) ∧
      ((∀ t ∈ healthTypes, getHealth d.deviceId t = some HealthStatus.ok) →
        deviceDelta getHealth cache d = none)) ∧
    (∀ d ∈ devices, ∃ e,
      lookupA (HealthCheck getHealth devices cache).2 d.deviceId = some e ∧
      (∀ t, t ∉ healthTypes → lookupA e t = lookupA (seedEntry cache d.deviceId) t) ∧
      (∀ t ∈ healthTypes, lookupA e t =
        if changed getHealth d.deviceId (seedEntry cache d.deviceId) t then
          getHealth d.deviceId t
        else lookupA (seedEntry cache d.deviceId) t)) ∧
    (∀ id, id ∉ devices.map XPUSMIDeviceDetails.deviceId →
      lookupA (HealthCheck getHealth devices cache).2 id = lookupA cache id) := by
  have hseedOK : ∀ d : XPUSMIDeviceDetails, ∀ cache' : HealthCache,
      lookupA cache' d.deviceId = none →
      seedEntry cache' d.deviceId = healthTypes.map (fun t => (t, HealthStatus.ok)) ∧
      ((∀ t ∈ healthTypes, getHealth d.deviceId t = some HealthStatus.ok) →
        deviceDelta getHealth cache' d = none) := by
    intro d cache' h0
    have hseed : seedEntry cache' d.deviceId =
        healthTypes.map (fun t => (t, HealthStatus.ok)) := by
      simp [seedEntry, h0]
    refine ⟨hseed, ?_⟩
    intro hok
    have hfil : healthTypes.filter
        (changed getHealth d.deviceId (seedEntry cache' d.deviceId)) = [] := by
      rw [List.filter_eq_nil_iff]
      intro t ht
      rw [hseed]
      simp [changed, hok t ht, lookupA_map_const, ht]
    simp [deviceDelta, hfil]
  induction devices generalizing cache with
  | nil =>
    refine ⟨rfl, fun d hd => absurd hd (List.not_mem_nil d),
      fun d hd => absurd hd (List.not_mem_nil d), fun id _ => rfl⟩
  | cons d rest ih =>
    have hnd' := List.nodup_cons.mp (by simpa only [List.map_cons] using hnd)
    obtain ⟨hck1, hck2, hck3⟩ :=
      checkDevice_spec getHealth d.deviceId healthTypes (seedEntry cache d.deviceId)
        (by decide)
    have hstep : HealthCheck getHealth (d :: rest) cache =
        (if (checkDevice getHealth d.deviceId healthTypes
              (seedEntry cache d.deviceId)).1 = [] then
          (HealthCheck getHealth rest (insertA cache d.deviceId
            (checkDevice getHealth d.deviceId healthTypes
              (seedEntry cache d.deviceId)).2)).1
        else (deviceUIDFromPCIinfo d.pciAddress d.pciDeviceId,
            (checkDevice getHealth d.deviceId healthTypes
              (seedEntry cache d.deviceId)).1) ::
          (HealthCheck getHealth rest (insertA cache d.deviceId
            (checkDevice getHealth d.deviceId healthTypes
              (seedEntry cache d.deviceId)).2)).1,
        (HealthCheck getHealth rest (insertA cache d.deviceId
          (checkDevice getHealth d.deviceId healthTypes
            (seedEntry cache d.deviceId)).2)).2) := by
      simp only [HealthCheck, seedEntry]
    set entry1 := (checkDevice getHealth d.deviceId healthTypes
      (seedEntry cache d.deviceId)).2 with hentry1
    set cache1 := insertA cache d.deviceId entry1 with hcache1
    have hlk1 : ∀ id, id ≠ d.deviceId → lookupA cache1 id = lookupA cache id := by
      intro id h
      exact lookupA_insertA_ne cache d.deviceId id entry1 (fun h2 => h h2.symm)
    have hseedc : ∀ d' ∈ rest, seedEntry cache1 d'.deviceId = seedEntry cache d'.deviceId := by
      intro d' hd'
      have hne : d'.deviceId ≠ d.deviceId := by
        intro h
        exact hnd'.1 (h ▸ List.mem_map.mpr ⟨d', hd', rfl⟩)
      rw [seedEntry, seedEntry, hlk1 d'.deviceId hne]
    have hdeltac : ∀ d' ∈ rest,
        deviceDelta getHealth cache1 d' = deviceDelta getHealth cache d' := by
      intro d' hd'
      rw [deviceDelta, deviceDelta, hseedc d' hd']
    obtain ⟨ih1, _, ih3, ih4⟩ := ih cache1 hnd'.2
    refine ⟨?_, ?_, ?_, ?_⟩
    · rw [hstep]
      have hdelta : deviceDelta getHealth cache d =
          if (healthTypes.filter
              (changed getHealth d.deviceId (seedEntry cache d.deviceId))) = [] then none
          else some (deviceUIDFromPCIinfo d.pciAddress d.pciDeviceId,
            (healthTypes.filter
              (changed getHealth d.deviceId (seedEntry cache d.deviceId))).map
              (fun t => (t, ((getHealth d.deviceId t).getD HealthStatus.unknown).name))) :=
        rfl
      rw [List.filterMap_cons, hdelta]
      by_cases hch : (healthTypes.filter
          (changed getHealth d.deviceId (seedEntry cache d.deviceId))) = []
      · rw [if_pos hch, if_pos (by rw [hck1, hch]; rfl)]
        rw [ih1, filterMap_congr _ _ rest hdeltac]
      · rw [if_neg hch, if_neg (by
            rw [hck1]
            intro h
            exact hch (List.map_eq_nil_iff.mp h))]
        rw [hck1, ih1, filterMap_congr _ _ rest hdeltac]
    · intro d' hd' h0
      exact hseedOK d' cache h0
    · intro d' hd'
      rcases List.mem_cons.mp hd' with he | hr
      · subst he
        have hnotr : d'.deviceId ∉ rest.map XPUSMIDeviceDetails.deviceId := hnd'.1
        refine ⟨entry1, ?_, ?_, ?_⟩
        · have h4 := ih4 d'.deviceId hnotr
          rw [hstep] at *
          rw [h4, hcache1, lookupA_insertA_self]
        · intro t ht
          exact hck2 t ht
        · intro t ht
          exact hck3 t ht
      · obtain ⟨e, he1, he2, he3⟩ := ih3 d' hr
        refine ⟨e, ?_, ?_, ?_⟩
        · rw [hstep]
          exact he1
        · intro t ht
          rw [he2 t ht, hseedc d' hr]
        · intro t ht
          rw [he3 t ht, hseedc d' hr]
    · intro id hid
      have hne : id ≠ d.deviceId := by
        intro h
        exact hid (h ▸ List.mem_map.mpr ⟨d, List.mem_cons_self _ _, rfl⟩)
      have hnr : id ∉ rest.map XPUSMIDeviceDetails.deviceId := by
        intro h
        exact hid (List.mem_cons_of_mem _ h)
      rw [hstep]
      rw [ih4 id hnr, hlk1 id hne]

def gW : Nat → String → Option HealthStatus :=
  fun id t => if t = "Memory" ∧ id = 7 then some HealthStatus.critical
    else some HealthStatus.ok

def dW1 : XPUSMIDeviceDetails :=
  { deviceId := 3, pciAddress := "0000:03:00.0", pciDeviceId := "0x56c0" }

def dW2 : XPUSMIDeviceDetails :=
  { deviceId := 7, pciAddress := "0000:07:00.0", pciDeviceId := "0x56c0" }

/-- C8 witness: on a fresh cache, the all-OK device 3 contributes no delta
and the device 7 (critical Memory) contributes exactly its one changed
category. -/
theorem gpu_health_delta_exactness_witness :
    (HealthCheck gW [dW1, dW2] []).1 = [dW1, dW2].filterMap (deviceDelta gW []) ∧
    (HealthCheck gW [dW1, dW2] []).1 =
      [("0000-07-00-0-0x56c0", [("Memory", "Critical")])] := by
  refine ⟨(gpu_health_delta_exactness gW [dW1, dW2] [] (by decide)).1, by decide⟩

/-! ### C9: health-status classification totality -/

/-- C9: the classification functions return normally for exactly the four
known status values — `statusHealth` for the four strings and
`statusNameTaintHealthEffect` for the four integer codes — with Critical the
only status classified unhealthy; every other value panics (`none`), never a
recoverable error. -/
theorem health_status_classification :
    (∀ s : String, (statusHealth s).isSome = true ↔
      s = "Critical" ∨ s = "Warning" ∨ s = "OK" ∨ s = "Unknown") ∧
    statusHealth "Critical" = some false ∧
    (∀ s : String, s ≠ "Critical" → ∀ b, statusHealth s = some b → b = true) ∧
    (∀ v : Int, (statusNameTaintHealthEffect v).isSome = true ↔
      v = CRITICAL ∨ v = WARNING ∨ v = OK ∨ v = UNKNOWN) ∧
    statusNameTaintHealthEffect CRITICAL = some ("Critical", true, false, "NoExecute") ∧
    (∀ v : Int, v ≠ CRITICAL → ∀ r, statusNameTaintHealthEffect v = some r →
      r.2.2.1 = true) := by
  refine ⟨?_, rfl, ?_, ?_, rfl, ?_⟩
  · intro s
    unfold statusHealth
    split_ifs with h1 h2 h3 h4 <;> simp_all
  · intro s hs b hb
    unfold statusHealth at hb
    split_ifs at hb with h1 h2 h3 h4 <;> simp_all
  · intro v
    unfold statusNameTaintHealthEffect
    split_ifs with h1 h2 h3 h4 <;> simp_all
  · intro v hv r hr
    unfold statusNameTaintHealthEffect at hr
    split_ifs at hr with h1 h2 h3 h4
    · exact absurd h1 hv
    · injection hr with h
      rw [← h]
    · injection hr with h
      rw [← h]
    · injection hr with h
      rw [← h]

/-- C9 witness: the codes of Warning (recoverable, healthy) and an
out-of-range code (panic). -/
theorem health_status_classification_witness :
    WARNING ≠ CRITICAL ∧
    statusNameTaintHealthEffect WARNING = some ("Warning", true, true, "NoSchedule") ∧
    (("Warning", true, true, "NoSchedule") : String × Bool × Bool × String).2.2.1 = true ∧
    statusNameTaintHealthEffect 5 = none ∧
    statusHealth "Bogus" = none := by
  refine ⟨by decide, by decide, ?_, by decide, by decide⟩
  exact health_status_classification.2.2.2.2.2 WARNING (by decide) _ (by decide)

/-! ### C10: updateHealth early return on an unknown device UID -/

theorem keys_insertA_found {κ α : Type} [DecidableEq κ] (m : List (κ × α)) (k : κ)
    (v w : α) (h : lookupA m k = some v) :
    (insertA m k w).map Prod.fst = m.map Prod.fst := by
  induction m with
  | nil => simp [lookupA] at h
  | cons p t ih =>
    by_cases hk : p.1 = k
    · rw [insertA, if_pos hk]
      simp [hk]
    · rw [lookupA, if_neg hk] at h
      rw [insertA, if_neg hk, List.map_cons, List.map_cons, ih h]

/-- C10: if the batch names a device UID absent from the allocatable device
map, `updateHealth` never publishes the resource slice: unless an earlier
entry panics on an invalid status value, it returns `notFound` at the
missing UID, with the same device set and every device not named before the
missing UID keeping its previous state. -/
theorem gpu_update_health_notfound (alloc : List (String × GpuDeviceInfo))
    (pre post : List (String × List (String × String)))
    (bad : String) (badSts : List (String × String))
    (hbad : lookupA alloc bad = none) :
    (∀ a', updateHealth alloc (pre ++ (bad, badSts) :: post) ≠
      UpdateHealthResult.published a') ∧
    (updateHealth alloc (pre ++ (bad, badSts) :: post) = UpdateHealthResult.panicked ∨
      ∃ a', updateHealth alloc (pre ++ (bad, badSts) :: post) =
          UpdateHealthResult.notFound a' ∧
        a'.map Prod.fst = alloc.map Prod.fst ∧
        ∀ id, id ∉ pre.map Prod.fst → lookupA a' id = lookupA alloc id) := by
  have main : ∀ (pre : List (String × List (String × String)))
      (alloc : List (String × GpuDeviceInfo)), lookupA alloc bad = none →
      updateHealth alloc (pre ++ (bad, badSts) :: post) = UpdateHealthResult.panicked ∨
      ∃ a', updateHealth alloc (pre ++ (bad, badSts) :: post) =
          UpdateHealthResult.notFound a' ∧
        a'.map Prod.fst = alloc.map Prod.fst ∧
        ∀ id, id ∉ pre.map Prod.fst → lookupA a' id = lookupA alloc id := by
    intro pre
    induction pre with
    | nil =>
      intro alloc h0
      refine Or.inr ⟨alloc, ?_, rfl, fun id _ => rfl⟩
      simp [updateHealth, h0]
    | cons q pre' ih =>
      obtain ⟨uid, sts⟩ := q
      intro alloc h0
      cases hlk : lookupA alloc uid with
      | none =>
        refine Or.inr ⟨alloc, ?_, rfl, fun id _ => rfl⟩
        simp [updateHealth, hlk]
      | some dev =>
        cases hap : applyStatuses dev sts true with
        | none =>
          refine Or.inl ?_
          simp [updateHealth, hlk, hap]
        | some dev' =>
          have hstep : updateHealth alloc (((uid, sts) :: pre') ++ (bad, badSts) :: post) =
              updateHealth (insertA alloc uid dev') (pre' ++ (bad, badSts) :: post) := by
            simp [updateHealth, hlk, hap]
          have hne : uid ≠ bad := by
            intro h
            rw [h, h0] at hlk
            exact Option.noConfusion hlk
          have h0' : lookupA (insertA alloc uid dev') bad = none := by
            rw [lookupA_insertA_ne alloc uid bad dev' hne]
            exact h0
          rcases ih (insertA alloc uid dev') h0' with hp | ⟨a', ha1, ha2, ha3⟩
          · exact Or.inl (hstep.trans hp)
          · refine Or.inr ⟨a', hstep.trans ha1, ?_, ?_⟩
            · rw [ha2, keys_insertA_found alloc uid dev dev' hlk]
            · intro id hid
              have hidp : id ∉ pre'.map Prod.fst := by
                intro h
                exact hid (List.mem_cons_of_mem _ h)
              have hidne : uid ≠ id := by
                intro h
                exact hid (h ▸ List.mem_cons_self _ _)
              rw [ha3 id hidp, lookupA_insertA_ne alloc uid id dev' hidne]
  have hm := main pre alloc hbad
  constructor
  · intro a' hpub
    rcases hm with hp | ⟨a'', ha1, _, _⟩
    · rw [hpub] at hp
      exact UpdateHealthResult.noConfusion hp
    · rw [hpub] at ha1
      exact UpdateHealthResult.noConfusion ha1
  · exact hm

def devG1 : GpuDeviceInfo := { healthStatus := [], healthy := true }

def devG2 : GpuDeviceInfo := { healthStatus := [("Memory", "OK")], healthy := true }

def allocW10 : List (String × GpuDeviceInfo) := [("g1", devG1), ("g2", devG2)]

def preW10 : List (String × List (String × String)) := [("g1", [("Memory", "Warning")])]

def postW10 : List (String × List (String × String)) := [("g2", [("Memory", "Critical")])]

/-- C10 witness: device `gX` is not allocatable, so the batch stops at it
with `notFound`; `g1` (before the missing UID) was updated, `g2` (after it)
keeps its previous state and nothing is published. -/
theorem gpu_update_health_notfound_witness :
    lookupA allocW10 "gX" = none ∧
    updateHealth allocW10 (preW10 ++ ("gX", [("Memory", "OK")]) :: postW10) ≠
      UpdateHealthResult.published allocW10 ∧
    updateHealth allocW10 (preW10 ++ ("gX", [("Memory", "OK")]) :: postW10) =
      UpdateHealthResult.notFound
        [("g1", { healthStatus := [("Memory", "Warning")], healthy := true }),
         ("g2", devG2)] := by
  have h := gpu_update_health_notfound allocW10 preW10 postW10 "gX" [("Memory", "OK")]
    (by decide)
  exact ⟨by decide, h.1 allocW10, by decide⟩

end IntelDra
